import Mathlib

/-!
Verification development for the pybb forum data model (`pybb/models.py`).

The relational state is embedded shallowly: each Django model row becomes a
Lean structure, the database becomes lists of rows, and the save/delete
methods become functions on that state.  Timestamps are naturals; nullable
columns are `Option`; a Python exception (`IndexError`, `DoesNotExist`,
`DatabaseError`) becomes an `Except.error`.
-/

set_option maxHeartbeats 1000000

namespace Pybb

/-- A `Forum` row with its denormalized counters (`pybb.models.Forum`). -/
structure Forum where
  id : Nat
  postCount : Nat
  topicCount : Nat
  updated : Option Nat
  deriving DecidableEq

/-- A `Topic` row (`pybb.models.Topic`); `pollType = 0` is `POLL_TYPE_NONE`. -/
structure Topic where
  id : Nat
  forumId : Nat
  postCount : Nat
  updated : Option Nat
  onModeration : Bool
  pollType : Nat
  deriving DecidableEq

/-- A `Post` row (`pybb.models.Post`); `created` is always set after a save. -/
structure Post where
  id : Nat
  topicId : Nat
  created : Nat
  updated : Option Nat
  onModeration : Bool
  deriving DecidableEq

/-- The relational store: the three tables the counter engine touches. -/
structure DB where
  forums : List Forum
  topics : List Topic
  posts : List Post
  deriving DecidableEq

/-- Lookup `Forum.objects.get(id=fid)`, as an optional value. -/
def findForum (forums : List Forum) (fid : Nat) : Option Forum :=
  forums.find? (fun f => f.id == fid)

/-- Lookup `Topic.objects.get(id=tid)`, as an optional value. -/
def findTopic (topics : List Topic) (tid : Nat) : Option Topic :=
  topics.find? (fun t => t.id == tid)

/-- Lookup `Post.objects.get(pk=pid)`, as an optional value. -/
def findPost (posts : List Post) (pid : Nat) : Option Post :=
  posts.find? (fun q => q.id == pid)

/-- Lift an optional lookup into `Except`, raising the given exception name. -/
def oget {α : Type} (o : Option α) (e : String) : Except String α :=
  match o with
  | some a => Except.ok a
  | none => Except.error e

/-- The sort key `(created, id)` used by `order_by('created', 'id')`. -/
def postKey (p : Post) : Nat × Nat := (p.created, p.id)

/-- Strict lexicographic order on `(created, id)` sort keys. -/
def keyLt (a b : Nat × Nat) : Bool :=
  a.1 < b.1 || (a.1 == b.1 && a.2 < b.2)

/-- First element of `order_by('created', 'id')`: the minimum by `(created, id)`.
`none` models the `IndexError` situation of an empty query set. -/
def minByKey : List Post → Option Post
  | [] => none
  | p :: ps => some (ps.foldl (fun m q => if keyLt (postKey q) (postKey m) then q else m) p)

/-- First element of `order_by('-created', '-id')`: the maximum by `(created, id)`. -/
def maxByKey : List Post → Option Post
  | [] => none
  | p :: ps => some (ps.foldl (fun m q => if keyLt (postKey m) (postKey q) then q else m) p)

/-- Query `Post.objects.filter(topic_id=tid)`: the topic's posts. -/
def topicPosts (posts : List Post) (tid : Nat) : List Post :=
  posts.filter (fun p => p.topicId == tid)

/-- The forum a post belongs to, through its topic row (`post.topic.forum_id`). -/
def postForumId (topics : List Topic) (p : Post) : Option Nat :=
  (findTopic topics p.topicId).map (fun t => t.forumId)

/-- Query `Post.objects.filter(topic__forum_id=fid)`: the posts under a forum. -/
def forumPosts (topics : List Topic) (posts : List Post) (fid : Nat) : List Post :=
  posts.filter (fun p => postForumId topics p == some fid)

/-- Query `Topic.objects.filter(forum=fid)`: the forum's topics. -/
def forumTopics (topics : List Topic) (fid : Nat) : List Topic :=
  topics.filter (fun t => t.forumId == fid)

/-- An SQL `UPDATE ... WHERE key = tid` over a row list: apply `g` to the
matching rows, leave the rest alone. -/
def updRows {α : Type} (key : α → Nat) (tid : Nat) (g : α → α) (l : List α) : List α :=
  l.map (fun a => if key a == tid then g a else a)

/-- Method `Topic.update_counters` (models.py 201-205): recount the topic's posts, set
`updated` from the `(created, id)`-greatest post (`last_post.updated or
last_post.created`), and save.  An empty topic raises `IndexError` at the
`[0]` subscript before anything is persisted. -/
def topicUpdateCounters (db : DB) (tid : Nat) : Except String DB :=
  match maxByKey (topicPosts db.posts tid) with
  | none => Except.error "IndexError"
  | some lp =>
      Except.ok
        { db with
            topics :=
              updRows Topic.id tid
                (fun t =>
                  { t with
                      postCount := (topicPosts db.posts tid).length,
                      updated := some (lp.updated.getD lp.created) })
                db.topics }

/-- The forum row produced by `Forum.update_counters` (models.py 86-96): recount
posts and topics; set `updated` from the `(created, id)`-greatest post when one
exists, otherwise leave it alone (`except IndexError: pass`). -/
def forumRecompute (db : DB) (f : Forum) : Forum :=
  match maxByKey (forumPosts db.topics db.posts f.id) with
  | some lp =>
      { f with
          postCount := (forumPosts db.topics db.posts f.id).length,
          topicCount := (forumTopics db.topics f.id).length,
          updated := some (lp.updated.getD lp.created) }
  | none =>
      { f with
          postCount := (forumPosts db.topics db.posts f.id).length,
          topicCount := (forumTopics db.topics f.id).length }

/-- Method `forum.update_counters()` invoked through a `forum` object: the forum row
must exist (else the foreign-key access raises `DoesNotExist`). -/
def forumUpdate (db : DB) (fid : Nat) : Except String DB :=
  match findForum db.forums fid with
  | none => Except.error "DoesNotExist"
  | some _ => Except.ok { db with forums := updRows Forum.id fid (forumRecompute db) db.forums }

/-- The `INSERT`/`UPDATE` performed by `super(Post, self).save()`: replace the
row with this pk when it exists, else append it. -/
def upsertPost (posts : List Post) (p : Post) : List Post :=
  if posts.any (fun q => q.id == p.id) then updRows Post.id p.id (fun _ => p) posts
  else posts ++ [p]

/-- The moderation auto-clear of `Post.save` (models.py 281-283): when the
saved post is its topic's head and is itself not on moderation while the topic
is, clear the topic's flag (persisted by the `update_counters` save that
follows).  `posts1` is the post table after the save. -/
def moderatedTopics (topics : List Topic) (posts1 : List Post) (p : Post)
    (topic : Topic) : List Topic :=
  if ((minByKey (topicPosts posts1 p.topicId)).any (fun h => h.id == p.id))
      && !p.onModeration && topic.onModeration then
    updRows Topic.id p.topicId (fun t => { t with onModeration := false }) topics
  else topics

/-- The store right after `super(Post, self).save()` and the moderation
auto-clear, before any counter recompute. -/
def postSaveDB1 (db : DB) (p : Post) (topic : Topic) : DB :=
  { db with posts := upsertPost db.posts p,
            topics := moderatedTopics db.topics (upsertPost db.posts p) p topic }

/-- Method `Post.save` (models.py 264-290).  Fetch the old row to detect a topic
change; persist the post; clear the topic's moderation flag when this post is
the topic's head and is itself not on moderation; recompute the topic's and its
forum's counters; on a topic change also recompute the old topic and forum.
The body/render fields do not interact with any modeled state and are omitted. -/
def postSave (db : DB) (p : Post) : Except String DB :=
  match findTopic db.topics p.topicId with
  | none => Except.error "DoesNotExist"
  | some topic =>
    match topicUpdateCounters (postSaveDB1 db p topic) p.topicId with
    | Except.error e => Except.error e
    | Except.ok db2 =>
      match forumUpdate db2 topic.forumId with
      | Except.error e => Except.error e
      | Except.ok db3 =>
        match findPost db.posts p.id with
        | none => Except.ok db3
        | some old =>
          if old.topicId == p.topicId then Except.ok db3
          else
            match findTopic db3.topics old.topicId with
            | none => Except.error "DoesNotExist"
            | some oldTopic =>
              match topicUpdateCounters db3 old.topicId with
              | Except.error e => Except.error e
              | Except.ok db4 => forumUpdate db4 oldTopic.forumId

/-- The store after the cascading `super(Topic, self).delete()`: the topic row
and all posts of the topic are gone. -/
def topicDeleteDB1 (db : DB) (t : Topic) : DB :=
  { db with topics := db.topics.filter (fun u => !(u.id == t.id)),
            posts := db.posts.filter (fun q => !(q.topicId == t.id)) }

/-- Method `Topic.delete` (models.py 197-199) on a topic object: cascade-delete the
topic row and its posts, then recompute the topic's forum. -/
def topicDeleteObj (db : DB) (t : Topic) : Except String DB :=
  forumUpdate (topicDeleteDB1 db t) t.forumId

/-- The store after `super(Post, self).delete()` of a non-head post: only this
post's row is gone. -/
def postDeleteDB1 (db : DB) (self : Post) : DB :=
  { db with posts := db.posts.filter (fun q => !(q.id == self.id)) }

/-- Method `Post.delete` (models.py 295-304) on a post object: look up the topic's
head post (`order_by('created', 'id')[0]`, an `IndexError` when the topic has
no posts); if this post is the head, delete the whole topic, otherwise delete
just this post and recompute the topic's and forum's counters. -/
def postDelete (db : DB) (self : Post) : Except String DB :=
  match findTopic db.topics self.topicId with
  | none => Except.error "DoesNotExist"
  | some topic =>
    match minByKey (topicPosts db.posts self.topicId) with
    | none => Except.error "IndexError"
    | some headPost =>
      if self.id == headPost.id then topicDeleteObj db topic
      else
        match topicUpdateCounters (postDeleteDB1 db self) self.topicId with
        | Except.error e => Except.error e
        | Except.ok db2 => forumUpdate db2 topic.forumId

/-- The store right after `super(Topic, self).save()` of an existing topic:
the topic's row is replaced. -/
def topicSaveDB1 (db : DB) (t : Topic) : DB :=
  { db with topics := updRows Topic.id t.id (fun _ => t) db.topics }

/-- Method `Topic.save` (models.py 180-195): persist the topic; when the persisted
forum id differs from the new one, recompute both the old and the new forum. -/
def topicSave (db : DB) (t : Topic) : Except String DB :=
  match findTopic db.topics t.id with
  | none => Except.ok { db with topics := db.topics ++ [t] }
  | some old =>
    if old.forumId == t.forumId then Except.ok (topicSaveDB1 db t)
    else
      match forumUpdate (topicSaveDB1 db t) old.forumId with
      | Except.error e => Except.error e
      | Except.ok db2 => forumUpdate db2 t.forumId

/-- Method `Topic.delete` reached through a fresh lookup of the topic id. -/
def topicDelete (db : DB) (tid : Nat) : Except String DB :=
  match findTopic db.topics tid with
  | none => Except.error "DoesNotExist"
  | some t => topicDeleteObj db t

/-- One structural operation of the lifecycle controller: a `Post.save`, a
`Post.delete` (on a freshly looked-up row) or a `Topic.delete`. -/
inductive Op where
  | save (p : Post)
  | del (pid : Nat)
  | delTopic (tid : Nat)
  deriving DecidableEq

/-- Execute one operation against the store. -/
def step (db : DB) : Op → Except String DB
  | Op.save p => postSave db p
  | Op.del pid =>
      match findPost db.posts pid with
      | none => Except.error "DoesNotExist"
      | some self => postDelete db self
  | Op.delTopic tid => topicDelete db tid

/-- Execute a sequence of operations; a raised exception aborts the run. -/
def execTrace (db : DB) : List Op → Except String DB
  | [] => Except.ok db
  | op :: ops =>
      match step db op with
      | Except.error e => Except.error e
      | Except.ok db1 => execTrace db1 ops

/-- Every topic row's cached `post_count` agrees with its live posts. -/
def topicsConsistent (db : DB) : Bool :=
  db.topics.all (fun t => t.postCount == (topicPosts db.posts t.id).length)

/-- Every forum row's cached `post_count` agrees with the live posts under it. -/
def forumsConsistent (db : DB) : Bool :=
  db.forums.all (fun f => f.postCount == (forumPosts db.topics db.posts f.id).length)

/-- The counter invariant of the spec: cached post counts match live rows. -/
def Inv (db : DB) : Prop :=
  topicsConsistent db = true ∧ forumsConsistent db = true

/-- The `head == self` test of `Post.save` after the post has been persisted:
the saved post is the `(created, id)`-least post of its topic. -/
def isHeadAfterSave (db : DB) (p : Post) : Bool :=
  (minByKey (topicPosts (upsertPost db.posts p) p.topicId)).any (fun h => h.id == p.id)

/-- The forum `updated` value the spec's words prescribe for
`Forum.update_counters`: `MAX(post.updated ?? post.created)` over the forum's
posts.  Stated only for comparison with `forumRecompute`, which instead takes
`updated ?? created` of the single `(created, id)`-greatest post. -/
def forumUpdatedPerSpec (posts : List Post) : Option Nat :=
  match posts.map (fun p => p.updated.getD p.created) with
  | [] => none
  | x :: xs => some (xs.foldl max x)

/-- A read-tracker row keyed by `(user, target)`.  Models both
`TopicReadTracker` and `ForumReadTracker`, whose manager logic
(models.py 353-372 and 391-410) is identical up to the target's table. -/
structure TrackerRow where
  userId : Nat
  targetId : Nat
  deriving DecidableEq

/-- The `unique_together` check: a row for this `(user, target)` exists, which
is exactly when the `INSERT` raises a `DatabaseError`. -/
def hasTracker (rows : List TrackerRow) (u t : Nat) : Bool :=
  rows.any (fun r => r.userId == u && r.targetId == t)

/-- Manager method `get_or_create_tracker`: open a savepoint, try the insert inside it; on
success commit the savepoint and return `(new row, is_new := true)`; on the
uniqueness `DatabaseError` roll back to the savepoint (restoring the table as
it was) and re-read the existing row, returning it with `is_new := false`.
The final `objects.get` raises `DoesNotExist` only if no row matches. -/
def getOrCreateTracker (rows : List TrackerRow) (u t : Nat) :
    Except String (List TrackerRow × TrackerRow × Bool) :=
  let sid := rows
  if hasTracker rows u t then
    match sid.find? (fun r => r.userId == u && r.targetId == t) with
    | some obj => Except.ok (sid, obj, false)
    | none => Except.error "DoesNotExist"
  else
    Except.ok (rows ++ [⟨u, t⟩], ⟨u, t⟩, true)

/-- A `PollAnswer` row (models.py 429-449). -/
structure PollAnswerRow where
  id : Nat
  topicId : Nat
  deriving DecidableEq

/-- A `PollAnswerUser` row (models.py 452-461): one user's vote for one answer. -/
structure PollAnswerUserRow where
  answerId : Nat
  userId : Nat
  deriving DecidableEq

/-- The poll tables. -/
structure PollState where
  answers : List PollAnswerRow
  votesRows : List PollAnswerUserRow
  deriving DecidableEq

/-- Method `PollAnswer.votes` (models.py 441-442): `self.users.count()`. -/
def answerVotes (ps : PollState) (a : PollAnswerRow) : Nat :=
  (ps.votesRows.filter (fun v => v.answerId == a.id)).length

/-- Query `PollAnswerUser.objects.filter(poll_answer__topic=self).count()`: votes of
all the topic's answers. -/
def totalTopicVotes (ps : PollState) (t : Topic) : Nat :=
  (ps.votesRows.filter (fun v =>
    (ps.answers.find? (fun a => a.id == v.answerId)).any
      (fun a => a.topicId == t.id))).length

/-- Method `Topic.poll_votes` (models.py 215-219): the join count when the topic has a
poll, `None` when `poll_type == POLL_TYPE_NONE`. -/
def pollVotes (ps : PollState) (t : Topic) : Option Nat :=
  if t.pollType ≠ 0 then some (totalTopicVotes ps t) else none

/-- Python 2's ordering on `None`: `None > 0` is `False`; for an int it is the
usual comparison.  This is the `topic_votes > 0` test of `votes_percent`. -/
def pyGtZero : Option Nat → Bool
  | none => false
  | some n => 0 < n

/-- Method `PollAnswer.votes_percent` (models.py 444-449), float arithmetic modeled
exactly in ℚ. -/
def votesPercent (ps : PollState) (t : Topic) (a : PollAnswerRow) : ℚ :=
  if pyGtZero (pollVotes ps t) then
    (answerVotes ps a : ℚ) / (((pollVotes ps t).getD 0 : Nat) : ℚ) * 100
  else 0

/-- Concrete store for the C1 witness trace. -/
def c1db : DB :=
  ⟨[⟨1, 0, 1, none⟩, ⟨2, 0, 1, none⟩],
   [⟨1, 1, 0, none, false, 0⟩, ⟨2, 2, 0, none, false, 0⟩], []⟩

/-- C1 witness trace: creates in two forums, a cross-forum post move, a
non-head post delete and a topic delete. -/
def c1ops : List Op :=
  [Op.save ⟨1, 1, 10, none, false⟩, Op.save ⟨2, 1, 20, none, false⟩,
   Op.save ⟨3, 2, 30, none, false⟩, Op.save ⟨4, 2, 40, none, false⟩,
   Op.save ⟨4, 1, 40, none, false⟩, Op.del 2, Op.delTopic 2]

/-- The store the C1 witness trace ends in. -/
def c1res : DB :=
  ⟨[⟨1, 2, 1, some 40⟩, ⟨2, 0, 0, some 30⟩],
   [⟨1, 1, 2, some 40, false, 0⟩],
   [⟨1, 1, 10, none, false⟩, ⟨4, 1, 40, none, false⟩]⟩

/-- Concrete store for the C2 witness: one topic with three posts. -/
def c2db : DB :=
  ⟨[⟨1, 3, 1, some 30⟩], [⟨1, 1, 3, some 30, false, 0⟩],
   [⟨1, 1, 10, none, false⟩, ⟨2, 1, 20, none, false⟩, ⟨3, 1, 30, none, false⟩]⟩

/-- Result of deleting the head post in `c2db`: the whole topic is gone. -/
def c2headRes : DB := ⟨[⟨1, 0, 0, some 30⟩], [], []⟩

/-- Result of deleting the non-head post 2 in `c2db`. -/
def c2tailRes : DB :=
  ⟨[⟨1, 2, 1, some 30⟩], [⟨1, 1, 2, some 30, false, 0⟩],
   [⟨1, 1, 10, none, false⟩, ⟨3, 1, 30, none, false⟩]⟩

/-- Concrete store for C3: topic 1 exists but holds no posts. -/
def c3db : DB := ⟨[⟨1, 0, 1, none⟩], [⟨1, 1, 0, none, false, 0⟩], []⟩

/-- An in-memory post instance pointing at the empty topic of `c3db`. -/
def c3post : Post := ⟨7, 1, 5, none, false⟩

/-- Concrete store for C4: topic 1 has two posts, topic 2 has none. -/
def c4db : DB :=
  ⟨[⟨1, 2, 2, some 50⟩],
   [⟨1, 1, 2, some 50, false, 0⟩, ⟨2, 1, 0, none, false, 0⟩],
   [⟨1, 1, 10, none, false⟩, ⟨2, 1, 20, some 50, false⟩]⟩

/-- Concrete store for C5: the older post was edited later (`updated = 999`)
than the newest post's timestamps. -/
def c5db : DB :=
  ⟨[⟨1, 2, 1, none⟩], [⟨1, 1, 2, none, false, 0⟩],
   [⟨1, 1, 1, some 999, false⟩, ⟨2, 1, 2, none, false⟩]⟩

/-- What `Forum.update_counters` produces on `c5db`: `updated = 2`, from the
`(created, id)`-greatest post, not the spec's `MAX(updated ?? created) = 999`. -/
def c5res : DB :=
  ⟨[⟨1, 2, 1, some 2⟩], [⟨1, 1, 2, none, false, 0⟩],
   [⟨1, 1, 1, some 999, false⟩, ⟨2, 1, 2, none, false⟩]⟩

/-- Concrete store for C6: topic flagged `on_moderation`, no posts yet. -/
def c6db : DB := ⟨[⟨1, 0, 1, none⟩], [⟨1, 1, 0, none, true, 0⟩], []⟩

/-- Concrete store for C7: a topic with one post sits in forum 1; forum 2 is
empty. -/
def c7db : DB :=
  ⟨[⟨1, 1, 1, some 10⟩, ⟨2, 0, 0, none⟩],
   [⟨1, 1, 1, some 10, false, 0⟩], [⟨1, 1, 10, none, false⟩]⟩

/-- Concrete tracker table for C8: user 1 already tracks target 1. -/
def c8rows : List TrackerRow := [⟨1, 1⟩]

/-- Concrete poll state for C9: answer 1 has three votes, answer 2 has one. -/
def c9ps : PollState :=
  ⟨[⟨1, 1⟩, ⟨2, 1⟩], [⟨1, 1⟩, ⟨1, 2⟩, ⟨1, 3⟩, ⟨2, 1⟩]⟩

/-- Topic of the C9 poll, with `poll_type = SINGLE`. -/
def c9topic : Topic := ⟨1, 1, 0, none, false, 1⟩

/-- Concrete poll state for C9's zero-vote part. -/
def c9psEmpty : PollState := ⟨[⟨1, 1⟩, ⟨2, 1⟩], []⟩

/-- Concrete poll state for C10: a vote row exists, but the topic below has
`poll_type = NONE`. -/
def c10ps : PollState := ⟨[⟨1, 1⟩], [⟨1, 1⟩]⟩

/-- Topic for C10, with `poll_type = NONE`. -/
def c10topic : Topic := ⟨1, 1, 0, none, false, 0⟩

/-- Well-formedness of the store: primary keys are unique per table. -/
def WF (db : DB) : Prop :=
  (db.posts.map Post.id).Nodup ∧ (db.topics.map Topic.id).Nodup ∧
    (db.forums.map Forum.id).Nodup

section ListLemmas

variable {α : Type}

@[simp] lemma updRows_nil (key : α → Nat) (tid : Nat) (g : α → α) :
    updRows key tid g [] = [] := rfl

@[simp] lemma updRows_cons (key : α → Nat) (tid : Nat) (g : α → α) (a : α) (l : List α) :
    updRows key tid g (a :: l) =
      (if key a == tid then g a else a) :: updRows key tid g l := rfl

lemma find?_map_invariant (l : List α) (f : α → α) (q : α → Bool)
    (h : ∀ a, q (f a) = q a) :
    (l.map f).find? q = (l.find? q).map f := by
  induction l with
  | nil => rfl
  | cons a t ih =>
    cases hqa : q a with
    | true => simp [List.find?_cons, h a, hqa]
    | false => simp [List.find?_cons, h a, hqa, ih]

lemma filter_map_invariant (l : List α) (f : α → α) (q : α → Bool)
    (h : ∀ a ∈ l, q (f a) = q a ∧ (q a = true → f a = a)) :
    (l.map f).filter q = l.filter q := by
  induction l with
  | nil => rfl
  | cons a t ih =>
    have ha := h a (List.mem_cons_self a t)
    have ht : ∀ b ∈ t, q (f b) = q b ∧ (q b = true → f b = b) :=
      fun b hb => h b (List.mem_cons_of_mem a hb)
    cases hqa : q a with
    | true => simp [List.filter_cons, ha.1, hqa, ha.2 hqa, ih ht]
    | false => simp [List.filter_cons, ha.1, hqa, ih ht]

lemma filter_filter_sub (l : List α) (r q : α → Bool)
    (h : ∀ a ∈ l, q a = true → r a = true) :
    (l.filter r).filter q = l.filter q := by
  induction l with
  | nil => rfl
  | cons a t ih =>
    have ht : ∀ b ∈ t, q b = true → r b = true :=
      fun b hb => h b (List.mem_cons_of_mem a hb)
    cases hra : r a with
    | true => cases hqa : q a with
      | true => simp [List.filter_cons, hra, hqa, ih ht]
      | false => simp [List.filter_cons, hra, hqa, ih ht]
    | false =>
      have hqa : q a = false := by
        cases hqa : q a with
        | true => exact absurd (h a (List.mem_cons_self a t) hqa) (by simp [hra])
        | false => rfl
      simp [List.filter_cons, hra, hqa, ih ht]

lemma find?_filter_of_imp (l : List α) (q r : α → Bool)
    (h : ∀ a, q a = true → r a = true) :
    (l.filter r).find? q = l.find? q := by
  induction l with
  | nil => rfl
  | cons a t ih =>
    cases hra : r a with
    | true => cases hqa : q a with
      | true => simp [List.filter_cons, List.find?_cons, hra, hqa]
      | false => simp [List.filter_cons, List.find?_cons, hra, hqa, ih]
    | false =>
      have hqa : q a = false := by
        cases hqa : q a with
        | true => exact absurd (h a hqa) (by simp [hra])
        | false => rfl
      simp [List.filter_cons, List.find?_cons, hra, hqa, ih]

lemma nodup_key_inj {l : List α} {key : α → Nat} (h : (l.map key).Nodup)
    {a b : α} (ha : a ∈ l) (hb : b ∈ l) (hk : key a = key b) : a = b := by
  induction l with
  | nil => cases ha
  | cons c t ih =>
    rw [List.map_cons, List.nodup_cons] at h
    rcases List.mem_cons.mp ha with rfl | ha'
    · rcases List.mem_cons.mp hb with rfl | hb'
      · rfl
      · exact absurd (hk ▸ List.mem_map_of_mem key hb') h.1
    · rcases List.mem_cons.mp hb with rfl | hb'
      · exact absurd (hk ▸ List.mem_map_of_mem key ha') h.1
      · exact ih h.2 ha' hb'

lemma find?_updRows_ne (key : α → Nat) (tid : Nat) (g : α → α) (l : List α)
    (hg : ∀ a, key a = tid → key (g a) = tid) (x : Nat) (hx : x ≠ tid) :
    (updRows key tid g l).find? (fun a => key a == x) =
      l.find? (fun a => key a == x) := by
  have h : ∀ a, ((fun a => key a == x) (if key a == tid then g a else a)) =
      ((fun a => key a == x) a) := by
    intro a
    by_cases h : key a = tid
    · have h1 : key (g a) = tid := hg a h
      simp only [h, beq_self_eq_true, if_true]
      simp [h1, h, Ne.symm hx]
    · simp [h]
  rw [show updRows key tid g l = l.map (fun a => if key a == tid then g a else a) from rfl,
    find?_map_invariant l _ _ h]
  cases hf : l.find? (fun a => key a == x) with
  | none => rfl
  | some a =>
    have := List.find?_some hf
    have hax : key a = x := by simpa using this
    simp [hax, hx]

lemma find?_updRows_eq (key : α → Nat) (tid : Nat) (g : α → α) (l : List α)
    (hg : ∀ a, key a = tid → key (g a) = tid) :
    (updRows key tid g l).find? (fun a => key a == tid) =
      (l.find? (fun a => key a == tid)).map g := by
  induction l with
  | nil => rfl
  | cons a t ih =>
    by_cases h : key a = tid
    · simp [List.find?_cons, h, hg a h]
    · simp [List.find?_cons, h, ih]

lemma updRows_map_key (key : α → Nat) (tid : Nat) (g : α → α) (l : List α)
    (hg : ∀ a, key a = tid → key (g a) = tid) :
    (updRows key tid g l).map key = l.map key := by
  rw [show updRows key tid g l = l.map (fun a => if key a == tid then g a else a) from rfl,
    List.map_map]
  apply List.map_congr_left
  intro a _
  by_cases h : key a = tid
  · simp [Function.comp, h, hg a h]
  · simp [Function.comp, h]

end ListLemmas

section KeyOrder

lemma keyLt_iff (a b : Nat × Nat) :
    keyLt a b = true ↔ (a.1 < b.1 ∨ (a.1 = b.1 ∧ a.2 < b.2)) := by
  simp [keyLt]

lemma keyLt_false_iff (a b : Nat × Nat) :
    keyLt a b = false ↔ ¬ (a.1 < b.1 ∨ (a.1 = b.1 ∧ a.2 < b.2)) := by
  constructor
  · intro h hcon
    rw [← keyLt_iff] at hcon
    rw [h] at hcon
    cases hcon
  · intro h
    cases hb : keyLt a b with
    | false => rfl
    | true => exact absurd ((keyLt_iff a b).mp hb) h

lemma keyLt_false_trans {a b c : Nat × Nat}
    (h1 : keyLt a b = false) (h2 : keyLt b c = false) : keyLt a c = false := by
  rw [keyLt_false_iff] at h1 h2 ⊢
  omega

lemma keyLt_asymm {a b : Nat × Nat} (h : keyLt a b = true) : keyLt b a = false := by
  rw [keyLt_iff] at h
  rw [keyLt_false_iff]
  omega

lemma foldl_max_mem (l : List Post) (p : Post) :
    l.foldl (fun m q => if keyLt (postKey m) (postKey q) then q else m) p ∈ p :: l := by
  induction l generalizing p with
  | nil => simp
  | cons a t ih =>
    rw [List.foldl_cons]
    cases hc : keyLt (postKey p) (postKey a) with
    | true =>
      rw [if_pos rfl]
      rcases List.mem_cons.mp (ih a) with h | h
      · rw [h]; exact List.mem_cons_of_mem p (List.mem_cons_self a t)
      · exact List.mem_cons_of_mem p (List.mem_cons_of_mem a h)
    | false =>
      rw [if_neg (by simp)]
      rcases List.mem_cons.mp (ih p) with h | h
      · rw [h]; exact List.mem_cons_self p (a :: t)
      · exact List.mem_cons_of_mem p (List.mem_cons_of_mem a h)

lemma foldl_max_ge (l : List Post) (p : Post) :
    ∀ q ∈ p :: l,
      keyLt (postKey (l.foldl (fun m r => if keyLt (postKey m) (postKey r) then r else m) p))
        (postKey q) = false := by
  induction l generalizing p with
  | nil =>
    intro q hq
    rcases List.mem_cons.mp hq with rfl | h
    · rw [List.foldl_nil, keyLt_false_iff]; omega
    · cases h
  | cons a t ih =>
    intro q hq
    rw [List.foldl_cons]
    cases hc : keyLt (postKey p) (postKey a) with
    | true =>
      rw [if_pos rfl]
      rcases List.mem_cons.mp hq with rfl | h
      · exact keyLt_false_trans (ih a a (List.mem_cons_self a t)) (keyLt_asymm hc)
      · exact ih a q h
    | false =>
      rw [if_neg (by simp)]
      rcases List.mem_cons.mp hq with rfl | h
      · exact ih q q (List.mem_cons_self q t)
      · rcases List.mem_cons.mp h with rfl | h'
        · exact keyLt_false_trans (ih p p (List.mem_cons_self p t)) hc
        · exact ih p q (List.mem_cons_of_mem p h')

lemma maxByKey_mem {l : List Post} {m : Post} (h : maxByKey l = some m) : m ∈ l := by
  cases l with
  | nil => cases h
  | cons a t =>
    unfold maxByKey at h
    injection h with h
    exact h ▸ foldl_max_mem t a

lemma maxByKey_isMax {l : List Post} {m : Post} (h : maxByKey l = some m) :
    ∀ q ∈ l, keyLt (postKey m) (postKey q) = false := by
  cases l with
  | nil => cases h
  | cons a t =>
    unfold maxByKey at h
    injection h with h
    exact fun q hq => h ▸ foldl_max_ge t a q hq

lemma foldl_min_mem (l : List Post) (p : Post) :
    l.foldl (fun m q => if keyLt (postKey q) (postKey m) then q else m) p ∈ p :: l := by
  induction l generalizing p with
  | nil => simp
  | cons a t ih =>
    rw [List.foldl_cons]
    cases hc : keyLt (postKey a) (postKey p) with
    | true =>
      rw [if_pos rfl]
      rcases List.mem_cons.mp (ih a) with h | h
      · rw [h]; exact List.mem_cons_of_mem p (List.mem_cons_self a t)
      · exact List.mem_cons_of_mem p (List.mem_cons_of_mem a h)
    | false =>
      rw [if_neg (by simp)]
      rcases List.mem_cons.mp (ih p) with h | h
      · rw [h]; exact List.mem_cons_self p (a :: t)
      · exact List.mem_cons_of_mem p (List.mem_cons_of_mem a h)

lemma foldl_min_le (l : List Post) (p : Post) :
    ∀ q ∈ p :: l,
      keyLt (postKey q)
        (postKey (l.foldl (fun m r => if keyLt (postKey r) (postKey m) then r else m) p))
        = false := by
  induction l generalizing p with
  | nil =>
    intro q hq
    rcases List.mem_cons.mp hq with rfl | h
    · rw [List.foldl_nil, keyLt_false_iff]; omega
    · cases h
  | cons a t ih =>
    intro q hq
    rw [List.foldl_cons]
    cases hc : keyLt (postKey a) (postKey p) with
    | true =>
      rw [if_pos rfl]
      rcases List.mem_cons.mp hq with rfl | h
      · exact keyLt_false_trans (keyLt_asymm hc) (ih a a (List.mem_cons_self a t))
      · exact ih a q h
    | false =>
      rw [if_neg (by simp)]
      rcases List.mem_cons.mp hq with rfl | h
      · exact ih q q (List.mem_cons_self q t)
      · rcases List.mem_cons.mp h with rfl | h'
        · exact keyLt_false_trans hc (ih p p (List.mem_cons_self p t))
        · exact ih p q (List.mem_cons_of_mem p h')

lemma minByKey_mem {l : List Post} {m : Post} (h : minByKey l = some m) : m ∈ l := by
  cases l with
  | nil => cases h
  | cons a t =>
    unfold minByKey at h
    injection h with h
    exact h ▸ foldl_min_mem t a

lemma minByKey_isMin {l : List Post} {m : Post} (h : minByKey l = some m) :
    ∀ q ∈ l, keyLt (postKey q) (postKey m) = false := by
  cases l with
  | nil => cases h
  | cons a t =>
    unfold minByKey at h
    injection h with h
    exact fun q hq => h ▸ foldl_min_le t a q hq

end KeyOrder

section Characterize

lemma topicUpdateCounters_ok {db : DB} {tid : Nat} {db2 : DB}
    (h : topicUpdateCounters db tid = Except.ok db2) :
    ∃ lp, maxByKey (topicPosts db.posts tid) = some lp ∧
      db2.posts = db.posts ∧ db2.forums = db.forums ∧
      db2.topics =
        updRows Topic.id tid
          (fun t =>
            { t with
                postCount := (topicPosts db.posts tid).length,
                updated := some (lp.updated.getD lp.created) })
          db.topics := by
  unfold topicUpdateCounters at h
  cases hm : maxByKey (topicPosts db.posts tid) with
  | none => rw [hm] at h; cases h
  | some lp =>
    rw [hm] at h
    injection h with h
    exact ⟨lp, rfl, by rw [← h], by rw [← h], by rw [← h]⟩

lemma topicUpdateCounters_err {db : DB} {tid : Nat}
    (h : topicPosts db.posts tid = []) :
    topicUpdateCounters db tid = Except.error "IndexError" := by
  unfold topicUpdateCounters
  rw [h]
  rfl

lemma forumUpdate_ok {db : DB} {fid : Nat} {db2 : DB}
    (h : forumUpdate db fid = Except.ok db2) :
    db2.posts = db.posts ∧ db2.topics = db.topics ∧
      db2.forums = updRows Forum.id fid (forumRecompute db) db.forums := by
  unfold forumUpdate at h
  cases hf : findForum db.forums fid with
  | none => rw [hf] at h; cases h
  | some f =>
    rw [hf] at h
    injection h with h
    exact ⟨by rw [← h], by rw [← h], by rw [← h]⟩

lemma forumRecompute_id (db : DB) (f : Forum) : (forumRecompute db f).id = f.id := by
  unfold forumRecompute
  cases maxByKey (forumPosts db.topics db.posts f.id) <;> rfl

lemma forumRecompute_postCount (db : DB) (f : Forum) :
    (forumRecompute db f).postCount = (forumPosts db.topics db.posts f.id).length := by
  unfold forumRecompute
  cases maxByKey (forumPosts db.topics db.posts f.id) <;> rfl

lemma forumRecompute_topicCount (db : DB) (f : Forum) :
    (forumRecompute db f).topicCount = (forumTopics db.topics f.id).length := by
  unfold forumRecompute
  cases maxByKey (forumPosts db.topics db.posts f.id) <;> rfl

end Characterize

section Stability

lemma postForumId_updRows_topics (topics : List Topic) (tid : Nat) (g : Topic → Topic)
    (hid : ∀ t, t.id = tid → (g t).id = tid)
    (hfid : ∀ t, t.id = tid → (g t).forumId = t.forumId) (p : Post) :
    postForumId (updRows Topic.id tid g topics) p = postForumId topics p := by
  unfold postForumId findTopic
  by_cases h : p.topicId = tid
  · rw [h, find?_updRows_eq Topic.id tid g topics hid]
    cases hf : topics.find? (fun t => t.id == tid) with
    | none => rfl
    | some t =>
      have ht : t.id = tid := by simpa using List.find?_some hf
      simp [hfid t ht]
  · rw [find?_updRows_ne Topic.id tid g topics hid p.topicId h]

lemma forumPosts_updRows_topics (topics : List Topic) (posts : List Post) (tid : Nat)
    (g : Topic → Topic)
    (hid : ∀ t, t.id = tid → (g t).id = tid)
    (hfid : ∀ t, t.id = tid → (g t).forumId = t.forumId) (fid : Nat) :
    forumPosts (updRows Topic.id tid g topics) posts fid = forumPosts topics posts fid := by
  unfold forumPosts
  apply List.filter_congr
  intro q _
  rw [postForumId_updRows_topics topics tid g hid hfid q]

lemma filter_upsert_existing {posts : List Post} {p old : Post} (q : Post → Bool)
    (hold : findPost posts p.id = some old)
    (hnodup : (posts.map Post.id).Nodup)
    (hqp : q p = false) (hqold : q old = false) :
    (upsertPost posts p).filter q = posts.filter q := by
  have hmem : old ∈ posts := List.mem_of_find?_eq_some hold
  have holdid : old.id = p.id := by simpa using List.find?_some hold
  have hany : posts.any (fun r => r.id == p.id) = true :=
    List.any_eq_true.mpr ⟨old, hmem, by simp [holdid]⟩
  unfold upsertPost
  rw [if_pos hany]
  apply filter_map_invariant
  intro a ha
  by_cases hid : a.id = p.id
  · have haold : a = old := nodup_key_inj hnodup ha hmem (by rw [hid, holdid])
    rw [if_pos (by simp [hid])]
    subst haold
    constructor
    · rw [hqp, hqold]
    · intro hqa; rw [hqold] at hqa; cases hqa
  · rw [if_neg (by simp [hid])]
    exact ⟨rfl, fun _ => rfl⟩

lemma filter_upsert_new {posts : List Post} {p : Post} (q : Post → Bool)
    (hnew : posts.any (fun r => r.id == p.id) = false) (hqp : q p = false) :
    (upsertPost posts p).filter q = posts.filter q := by
  unfold upsertPost
  rw [if_neg (by simp [hnew]), List.filter_append]
  simp [List.filter_cons, hqp]

lemma upsert_map_id {posts : List Post} {p : Post}
    (hnodup : (posts.map Post.id).Nodup) :
    ((upsertPost posts p).map Post.id).Nodup := by
  unfold upsertPost
  cases hany : posts.any (fun r => r.id == p.id) with
  | true =>
    rw [if_pos rfl]
    rw [updRows_map_key Post.id p.id (fun _ => p) posts (fun a _ => rfl)]
    exact hnodup
  | false =>
    rw [if_neg (by simp [hany])]
    rw [List.map_append, List.nodup_append]
    refine ⟨hnodup, by simp, ?_⟩
    intro x hx hx2
    simp only [List.map_cons, List.map_nil, List.mem_singleton] at hx2
    subst hx2
    rcases List.mem_map.mp hx with ⟨a, ha, haid⟩
    have : posts.any (fun r => r.id == p.id) = true :=
      List.any_eq_true.mpr ⟨a, ha, by simp [haid]⟩
    rw [hany] at this
    cases this

lemma topicsConsistent_mem {db : DB} {t : Topic} (h : topicsConsistent db = true)
    (ht : t ∈ db.topics) : t.postCount = (topicPosts db.posts t.id).length := by
  have := List.all_eq_true.mp h t ht
  simpa using this

lemma forumsConsistent_mem {db : DB} {f : Forum} (h : forumsConsistent db = true)
    (hf : f ∈ db.forums) :
    f.postCount = (forumPosts db.topics db.posts f.id).length := by
  have := List.all_eq_true.mp h f hf
  simpa using this

lemma mem_updRows_decomp {α : Type} {key : α → Nat} {tid : Nat} {g : α → α} {l : List α}
    {a : α} (ha : a ∈ updRows key tid g l) :
    ∃ b, b ∈ l ∧ ((key b = tid ∧ a = g b) ∨ (key b ≠ tid ∧ a = b)) := by
  rcases List.mem_map.mp ha with ⟨b, hb, hab⟩
  by_cases h : key b = tid
  · rw [if_pos (by simp [h])] at hab
    exact ⟨b, hb, Or.inl ⟨h, hab.symm⟩⟩
  · rw [if_neg (by simp [h])] at hab
    exact ⟨b, hb, Or.inr ⟨h, hab.symm⟩⟩

lemma moderatedTopics_map_id (topics : List Topic) (posts1 : List Post) (p : Post)
    (topic : Topic) :
    (moderatedTopics topics posts1 p topic).map Topic.id = topics.map Topic.id := by
  unfold moderatedTopics
  split
  · exact updRows_map_key Topic.id p.topicId _ topics (fun a ha => ha)
  · rfl

lemma moderatedTopics_postForumId (topics : List Topic) (posts1 : List Post) (p : Post)
    (topic : Topic) (q : Post) :
    postForumId (moderatedTopics topics posts1 p topic) q = postForumId topics q := by
  unfold moderatedTopics
  split
  · exact postForumId_updRows_topics topics p.topicId
      (fun t => { t with onModeration := false }) (fun t ht => ht) (fun t _ => rfl) q
  · rfl

lemma moderatedTopics_mem {topics : List Topic} {posts1 : List Post} {p : Post}
    {topic : Topic} {t : Topic} (ht : t ∈ moderatedTopics topics posts1 p topic) :
    ∃ t0, t0 ∈ topics ∧ t.id = t0.id ∧ t.postCount = t0.postCount ∧
      t.forumId = t0.forumId := by
  unfold moderatedTopics at ht
  split at ht
  · rcases mem_updRows_decomp ht with ⟨t0, ht0, hcase⟩
    refine ⟨t0, ht0, ?_, ?_, ?_⟩ <;>
      rcases hcase with ⟨hkey, heq⟩ | ⟨hkey, heq⟩ <;> rw [heq]
  · exact ⟨t, ht, rfl, rfl, rfl⟩

lemma findPost_none_any {posts : List Post} {pid : Nat} (h : findPost posts pid = none) :
    posts.any (fun r => r.id == pid) = false := by
  cases hany : posts.any (fun r => r.id == pid) with
  | false => rfl
  | true =>
    rcases List.any_eq_true.mp hany with ⟨a, ha, hpa⟩
    exact absurd hpa (List.find?_eq_none.mp h a ha)

lemma topicPosts_upsert_stable {posts : List Post} {p : Post} {x : Nat}
    (hwfP : (posts.map Post.id).Nodup)
    (hxp : p.topicId ≠ x)
    (hold : ∀ old, findPost posts p.id = some old → old.topicId ≠ x) :
    topicPosts (upsertPost posts p) x = topicPosts posts x := by
  cases hf : findPost posts p.id with
  | none => exact filter_upsert_new _ (findPost_none_any hf) (by simp [hxp])
  | some old =>
    exact filter_upsert_existing _ hf hwfP (by simp [hxp]) (by simp [hold old hf])

lemma forumPosts_upsert_stable {posts : List Post} {p : Post} {y : Nat}
    {topics : List Topic}
    (hwfP : (posts.map Post.id).Nodup)
    (hyp : postForumId topics p ≠ some y)
    (hold : ∀ old, findPost posts p.id = some old → postForumId topics old ≠ some y) :
    forumPosts topics (upsertPost posts p) y = forumPosts topics posts y := by
  cases hf : findPost posts p.id with
  | none => exact filter_upsert_new _ (findPost_none_any hf) (by simp [hyp])
  | some old =>
    exact filter_upsert_existing _ hf hwfP (by simp [hyp]) (by simp [hold old hf])

lemma forumPosts_moderatedTopics (topics : List Topic) (posts1 : List Post) (p : Post)
    (topic : Topic) (posts : List Post) (y : Nat) :
    forumPosts (moderatedTopics topics posts1 p topic) posts y =
      forumPosts topics posts y := by
  unfold forumPosts
  apply List.filter_congr
  intro q _
  rw [moderatedTopics_postForumId]

lemma postForumId_of_findTopic {topics : List Topic} {tid : Nat} {topic : Topic}
    (h : findTopic topics tid = some topic) {q : Post} (hq : q.topicId = tid) :
    postForumId topics q = some topic.forumId := by
  unfold postForumId
  rw [hq, h]
  rfl

end Stability

section Shapes

lemma postSave_ok_shape {db : DB} {p : Post} {db' : DB}
    (h : postSave db p = Except.ok db') :
    ∃ topic db2 db3,
      findTopic db.topics p.topicId = some topic ∧
      topicUpdateCounters (postSaveDB1 db p topic) p.topicId = Except.ok db2 ∧
      forumUpdate db2 topic.forumId = Except.ok db3 ∧
      (((∀ old, findPost db.posts p.id = some old → old.topicId = p.topicId) ∧
          db' = db3) ∨
        (∃ old oldTopic db4,
          findPost db.posts p.id = some old ∧ old.topicId ≠ p.topicId ∧
          findTopic db3.topics old.topicId = some oldTopic ∧
          topicUpdateCounters db3 old.topicId = Except.ok db4 ∧
          forumUpdate db4 oldTopic.forumId = Except.ok db')) := by
  unfold postSave at h
  split at h
  · cases h
  rename_i topic hft
  split at h
  · cases h
  rename_i db2 hub2
  split at h
  · cases h
  rename_i db3 hub3
  refine ⟨topic, db2, db3, hft, hub2, hub3, ?_⟩
  split at h
  · rename_i hfp
    injection h with h
    refine Or.inl ⟨?_, h.symm⟩
    intro old hold
    rw [hfp] at hold
    cases hold
  rename_i old hfp
  split at h
  · rename_i hsame
    injection h with h
    refine Or.inl ⟨?_, h.symm⟩
    intro old1 hold1
    rw [hfp] at hold1
    injection hold1 with hold1
    subst hold1
    simpa using hsame
  rename_i hdiff
  split at h
  · cases h
  rename_i oldTopic hfot
  split at h
  · cases h
  rename_i db4 hub4
  exact Or.inr ⟨old, oldTopic, db4, hfp, by simpa using hdiff, hfot, hub4, h⟩

end Shapes

section Preservation

lemma forumPosts_congr_topics {l1 l2 : List Topic}
    (h : ∀ q : Post, postForumId l1 q = postForumId l2 q) (posts : List Post) (y : Nat) :
    forumPosts l1 posts y = forumPosts l2 posts y :=
  List.filter_congr (fun q _ => by rw [h q])

lemma postSave_preserves {db : DB} {p : Post} {db' : DB}
    (hwf : WF db) (hinv : Inv db) (h : postSave db p = Except.ok db') :
    WF db' ∧ Inv db' := by
  obtain ⟨hwfP, hwfT, hwfF⟩ := hwf
  obtain ⟨hinvT, hinvF⟩ := hinv
  rcases postSave_ok_shape h with ⟨topic, db2, db3, hft, hub2, hub3, hbr⟩
  rcases topicUpdateCounters_ok hub2 with ⟨lp1, hmax1, hdb2p, hdb2f, hdb2t⟩
  have hdb1p : (postSaveDB1 db p topic).posts = upsertPost db.posts p := rfl
  have hdb1t : (postSaveDB1 db p topic).topics =
      moderatedTopics db.topics (upsertPost db.posts p) p topic := rfl
  have hdb1f : (postSaveDB1 db p topic).forums = db.forums := rfl
  rw [hdb1p] at hdb2p
  rw [hdb1p, hdb1t] at hdb2t
  rw [hdb1f] at hdb2f
  rcases forumUpdate_ok hub3 with ⟨hdb3p, hdb3t, hdb3f⟩
  rw [hdb2p] at hdb3p
  rw [hdb2t] at hdb3t
  rw [hdb2f] at hdb3f
  have hpfid : postForumId db.topics p = some topic.forumId :=
    postForumId_of_findTopic hft rfl
  have hagree3 : ∀ q : Post, postForumId db3.topics q = postForumId db.topics q := by
    intro q
    rw [hdb3t]
    refine Eq.trans (postForumId_updRows_topics _ _ _ ?_ ?_ q)
      (moderatedTopics_postForumId _ _ _ _ q)
    · intro t ht; exact ht
    · intro t _; rfl
  have hmap3 : db3.topics.map Topic.id = db.topics.map Topic.id := by
    rw [hdb3t]
    refine Eq.trans (updRows_map_key _ _ _ _ ?_) (moderatedTopics_map_id _ _ _ _)
    intro t ht; exact ht
  have hwf3P : (db3.posts.map Post.id).Nodup := by
    rw [hdb3p]; exact upsert_map_id hwfP
  have hwf3T : (db3.topics.map Topic.id).Nodup := by rw [hmap3]; exact hwfT
  have hwf3F : (db3.forums.map Forum.id).Nodup := by
    rw [hdb3f]
    rw [updRows_map_key Forum.id topic.forumId (forumRecompute db2) db.forums
      (fun a ha => by rw [forumRecompute_id]; exact ha)]
    exact hwfF
  rcases hbr with ⟨holdsame, rfl⟩ | ⟨old, oldTopic, db4, hfp, hdiff, hfot, hub4, hub5⟩
  · -- no topic change: the result is db3 (renamed to db')
    refine ⟨⟨hwf3P, hwf3T, hwf3F⟩, ?_, ?_⟩
    · refine List.all_eq_true.mpr ?_
      intro t' ht'
      rw [hdb3t] at ht'
      rcases mem_updRows_decomp ht' with ⟨t0, ht0, hcase⟩
      rcases hcase with ⟨hkey, heq⟩ | ⟨hkey, heq⟩
      · rw [heq]
        simp [hdb3p, hkey]
      · rw [heq]
        rcases moderatedTopics_mem ht0 with ⟨tb, htb, hid, hcount, _⟩
        have hbase := topicsConsistent_mem hinvT htb
        have hstable : topicPosts (upsertPost db.posts p) t0.id =
            topicPosts db.posts t0.id := by
          refine topicPosts_upsert_stable hwfP (fun hc => hkey hc.symm) ?_
          intro old1 hold1
          rw [holdsame old1 hold1]
          exact fun hc => hkey hc.symm
        simp only [hdb3p, hstable, beq_iff_eq]
        rw [hcount, hid]
        exact hbase
    · refine List.all_eq_true.mpr ?_
      intro f' hf'
      rw [hdb3f] at hf'
      rcases mem_updRows_decomp hf' with ⟨f0, hf0, hcase⟩
      rcases hcase with ⟨hkey, heq⟩ | ⟨hkey, heq⟩
      · rw [heq]
        simp only [beq_iff_eq, forumRecompute_postCount, forumRecompute_id]
        rw [hdb3p, hdb3t, hdb2p, hdb2t]
      · rw [heq]
        have hbase := forumsConsistent_mem hinvF hf0
        have hchain : forumPosts db'.topics db'.posts f0.id =
            forumPosts db.topics db.posts f0.id := by
          rw [forumPosts_congr_topics hagree3, hdb3p]
          refine forumPosts_upsert_stable hwfP ?_ ?_
          · rw [hpfid]
            intro hc
            injection hc with hc
            exact hkey hc.symm
          · intro old1 hold1
            rw [postForumId_of_findTopic hft (holdsame old1 hold1)]
            intro hc
            injection hc with hc
            exact hkey hc.symm
        simp only [beq_iff_eq, hchain]
        exact hbase
  · -- topic change: two further recomputes
    rcases topicUpdateCounters_ok hub4 with ⟨lp2, hmax2, hdb4p, hdb4f, hdb4t⟩
    rw [hdb3p] at hdb4p hdb4t hmax2
    rw [hdb3f] at hdb4f
    rcases forumUpdate_ok hub5 with ⟨hdb5p, hdb5t, hdb5f⟩
    rw [hdb4p] at hdb5p
    rw [hdb4t] at hdb5t
    rw [hdb4f] at hdb5f
    have hpfidOld : postForumId db.topics old = some oldTopic.forumId := by
      rw [← hagree3 old]
      exact postForumId_of_findTopic hfot rfl
    have hagree54 : ∀ q : Post, postForumId db'.topics q = postForumId db3.topics q := by
      intro q
      rw [hdb5t, hdb3t]
      refine postForumId_updRows_topics _ _ _ ?_ ?_ q
      · intro t ht; exact ht
      · intro t _; rfl
    have hagree5 : ∀ q : Post, postForumId db'.topics q = postForumId db.topics q :=
      fun q => Eq.trans (hagree54 q) (hagree3 q)
    have hmap5 : db'.topics.map Topic.id = db.topics.map Topic.id := by
      rw [hdb5t]
      refine Eq.trans (updRows_map_key _ _ _ _ ?_) hmap3
      intro t ht; exact ht
    refine ⟨⟨?_, ?_, ?_⟩, ?_, ?_⟩
    · rw [hdb5p]; exact upsert_map_id hwfP
    · rw [hmap5]; exact hwfT
    · rw [hdb5f]
      rw [updRows_map_key Forum.id oldTopic.forumId (forumRecompute db4) _
        (fun a ha => by rw [forumRecompute_id]; exact ha)]
      rw [← hdb3f]
      exact hwf3F
    · refine List.all_eq_true.mpr ?_
      intro t' ht'
      rw [hdb5t] at ht'
      rcases mem_updRows_decomp ht' with ⟨t0, ht0, hcase⟩
      rcases hcase with ⟨hkey, heq⟩ | ⟨hkey, heq⟩
      · rw [heq]
        simp [hdb5p, hkey]
      · rw [heq]
        rw [hdb3t] at ht0
        rcases mem_updRows_decomp ht0 with ⟨t1, ht1, hcase1⟩
        rcases hcase1 with ⟨hkey1, heq1⟩ | ⟨hkey1, heq1⟩
        · rw [heq1]
          simp [hdb5p, hkey1]
        · rw [heq1]
          rcases moderatedTopics_mem ht1 with ⟨tb, htb, hid, hcount, _⟩
          have hbase := topicsConsistent_mem hinvT htb
          have hstable : topicPosts (upsertPost db.posts p) t1.id =
              topicPosts db.posts t1.id := by
            refine topicPosts_upsert_stable hwfP (fun hc => hkey1 hc.symm) ?_
            intro old1 hold1
            rw [hfp] at hold1
            injection hold1 with hold1
            subst hold1
            rw [heq1] at hkey
            exact fun hc => hkey hc.symm
          simp only [hdb5p, hstable, beq_iff_eq]
          rw [hcount, hid]
          exact hbase
    · refine List.all_eq_true.mpr ?_
      intro f' hf'
      rw [hdb5f] at hf'
      rcases mem_updRows_decomp hf' with ⟨f0, hf0, hcase⟩
      rcases hcase with ⟨hkey, heq⟩ | ⟨hkey, heq⟩
      · rw [heq]
        simp only [beq_iff_eq, forumRecompute_postCount, forumRecompute_id]
        have httr : db4.topics = db'.topics := by rw [hdb4t, hdb5t]
        rw [httr, hdb5p, hdb4p]
      · rw [heq]
        rcases mem_updRows_decomp hf0 with ⟨f1, hf1, hcase1⟩
        rcases hcase1 with ⟨hkey1, heq1⟩ | ⟨hkey1, heq1⟩
        · rw [heq1]
          simp only [beq_iff_eq, forumRecompute_postCount, forumRecompute_id]
          rw [forumPosts_congr_topics hagree54, hdb5p, hdb2p, hdb2t, hdb3t]
        · rw [heq1]
          have hbase := forumsConsistent_mem hinvF hf1
          have hchain : forumPosts db'.topics db'.posts f1.id =
              forumPosts db.topics db.posts f1.id := by
            rw [forumPosts_congr_topics hagree5, hdb5p]
            refine forumPosts_upsert_stable hwfP ?_ ?_
            · rw [hpfid]
              intro hc
              injection hc with hc
              exact hkey1 hc.symm
            · intro old1 hold1
              rw [hfp] at hold1
              injection hold1 with hold1
              subst hold1
              rw [hpfidOld]
              intro hc
              injection hc with hc
              rw [heq1] at hkey
              exact hkey hc.symm
          simp only [beq_iff_eq, hchain]
          exact hbase

lemma filter_filter_congr {α : Type} (l : List α) (r q q1 : α → Bool)
    (h : ∀ a ∈ l, (r a = true → q1 a = q a) ∧ (r a = false → q a = false)) :
    (l.filter r).filter q1 = l.filter q := by
  induction l with
  | nil => rfl
  | cons a tl ih =>
    have ha := h a (List.mem_cons_self a tl)
    have htl : ∀ b ∈ tl, (r b = true → q1 b = q b) ∧ (r b = false → q b = false) :=
      fun b hb => h b (List.mem_cons_of_mem a hb)
    cases hra : r a with
    | true =>
      have hq1 : q1 a = q a := ha.1 hra
      cases hqa : q a with
      | true => simp [List.filter_cons, hra, hq1, hqa, ih htl]
      | false => simp [List.filter_cons, hra, hq1, hqa, ih htl]
    | false =>
      have hqa : q a = false := ha.2 hra
      simp [List.filter_cons, hra, hqa, ih htl]

lemma topicDeleteObj_preserves {db : DB} {t : Topic} {db' : DB}
    (hwf : WF db) (hinv : Inv db)
    (ht : findTopic db.topics t.id = some t)
    (h : topicDeleteObj db t = Except.ok db') :
    WF db' ∧ Inv db' := by
  obtain ⟨hwfP, hwfT, hwfF⟩ := hwf
  obtain ⟨hinvT, hinvF⟩ := hinv
  unfold topicDeleteObj at h
  rcases forumUpdate_ok h with ⟨hp, htop, hf⟩
  have hd1p : (topicDeleteDB1 db t).posts =
      db.posts.filter (fun q => !(q.topicId == t.id)) := rfl
  have hd1t : (topicDeleteDB1 db t).topics =
      db.topics.filter (fun u => !(u.id == t.id)) := rfl
  have hd1f : (topicDeleteDB1 db t).forums = db.forums := rfl
  rw [hd1p] at hp
  rw [hd1t] at htop
  rw [hd1f] at hf
  have hagree : ∀ q : Post, q.topicId ≠ t.id →
      postForumId db'.topics q = postForumId db.topics q := by
    intro q hq
    rw [htop]
    unfold postForumId findTopic
    rw [find?_filter_of_imp]
    intro a hqa
    have ha : a.id = q.topicId := by simpa using hqa
    simp [ha, hq]
  refine ⟨⟨?_, ?_, ?_⟩, ?_, ?_⟩
  · rw [hp]
    exact List.Nodup.sublist (List.Sublist.map Post.id (List.filter_sublist db.posts)) hwfP
  · rw [htop]
    exact List.Nodup.sublist (List.Sublist.map Topic.id (List.filter_sublist db.topics)) hwfT
  · rw [hf]
    rw [updRows_map_key Forum.id t.forumId (forumRecompute (topicDeleteDB1 db t)) db.forums
      (fun a ha => by rw [forumRecompute_id]; exact ha)]
    exact hwfF
  · refine List.all_eq_true.mpr ?_
    intro t0 ht0
    rw [htop, List.mem_filter] at ht0
    obtain ⟨ht0mem, ht0ne⟩ := ht0
    have hne : t0.id ≠ t.id := by simpa using ht0ne
    have hbase := topicsConsistent_mem hinvT ht0mem
    have hstable : topicPosts db'.posts t0.id = topicPosts db.posts t0.id := by
      rw [hp]
      unfold topicPosts
      refine filter_filter_sub _ _ _ ?_
      intro a _ hqa
      have haq : a.topicId = t0.id := by simpa using hqa
      simp [haq, hne]
    simp only [beq_iff_eq, hstable]
    exact hbase
  · refine List.all_eq_true.mpr ?_
    intro f0 hf0
    rw [hf] at hf0
    rcases mem_updRows_decomp hf0 with ⟨f1, hf1, hcase⟩
    rcases hcase with ⟨hkey, heq⟩ | ⟨hkey, heq⟩
    · rw [heq]
      simp only [beq_iff_eq, forumRecompute_postCount, forumRecompute_id]
      rw [hd1t, hd1p, htop, hp]
    · rw [heq]
      have hbase := forumsConsistent_mem hinvF hf1
      have hchain : forumPosts db'.topics db'.posts f1.id =
          forumPosts db.topics db.posts f1.id := by
        rw [hp]
        unfold forumPosts
        refine filter_filter_congr _ _ _ _ ?_
        intro a _
        constructor
        · intro hra
          have hane : a.topicId ≠ t.id := by simpa using hra
          rw [hagree a hane]
        · intro hra
          have haeq : a.topicId = t.id := by simpa using hra
          rw [postForumId_of_findTopic ht haeq, beq_eq_false_iff_ne]
          intro hc
          injection hc with hc
          exact hkey hc.symm
      simp only [beq_iff_eq, hchain]
      exact hbase

lemma postDelete_ok_shape {db : DB} {self : Post} {db' : DB}
    (h : postDelete db self = Except.ok db') :
    ∃ topic headPost,
      findTopic db.topics self.topicId = some topic ∧
      minByKey (topicPosts db.posts self.topicId) = some headPost ∧
      ((self.id = headPost.id ∧ topicDeleteObj db topic = Except.ok db') ∨
        (self.id ≠ headPost.id ∧
          ∃ db2, topicUpdateCounters (postDeleteDB1 db self) self.topicId = Except.ok db2 ∧
            forumUpdate db2 topic.forumId = Except.ok db')) := by
  unfold postDelete at h
  split at h
  · cases h
  rename_i topic hft
  split at h
  · cases h
  rename_i headPost hmin
  refine ⟨topic, headPost, hft, hmin, ?_⟩
  split at h
  · rename_i hhead
    exact Or.inl ⟨by simpa using hhead, h⟩
  rename_i hhead
  split at h
  · cases h
  rename_i db2 hub2
  exact Or.inr ⟨by simpa using hhead, db2, hub2, h⟩

lemma postDelete_preserves {db : DB} {self : Post} {db' : DB}
    (hwf : WF db) (hinv : Inv db)
    (hself : findPost db.posts self.id = some self)
    (h : postDelete db self = Except.ok db') :
    WF db' ∧ Inv db' := by
  rcases postDelete_ok_shape h with ⟨topic, headPost, hft, hmin, hbr⟩
  have htid : topic.id = self.topicId := by simpa using List.find?_some hft
  rcases hbr with ⟨hhead, hcas⟩ | ⟨hhead, db2, hub2, hfu⟩
  · exact topicDeleteObj_preserves hwf hinv (by rw [htid]; exact hft) hcas
  obtain ⟨hwfP, hwfT, hwfF⟩ := hwf
  obtain ⟨hinvT, hinvF⟩ := hinv
  have hselfmem : self ∈ db.posts := List.mem_of_find?_eq_some hself
  rcases topicUpdateCounters_ok hub2 with ⟨lp, hmax, hdb2p, hdb2f, hdb2t⟩
  have hd1p : (postDeleteDB1 db self).posts =
      db.posts.filter (fun q => !(q.id == self.id)) := rfl
  have hd1t : (postDeleteDB1 db self).topics = db.topics := rfl
  have hd1f : (postDeleteDB1 db self).forums = db.forums := rfl
  rw [hd1p] at hdb2p
  rw [hd1p, hd1t] at hdb2t
  rw [hd1f] at hdb2f
  rcases forumUpdate_ok hfu with ⟨hp, htop, hf⟩
  rw [hdb2p] at hp
  rw [hdb2t] at htop
  rw [hdb2f] at hf
  have hagree : ∀ q : Post, postForumId db'.topics q = postForumId db.topics q := by
    intro q
    rw [htop]
    refine postForumId_updRows_topics _ _ _ ?_ ?_ q
    · intro u hu; exact hu
    · intro u _; rfl
  have hremove : ∀ a ∈ db.posts, a.id = self.id → a = self :=
    fun a ha haid => nodup_key_inj hwfP ha hselfmem haid
  refine ⟨⟨?_, ?_, ?_⟩, ?_, ?_⟩
  · rw [hp]
    exact List.Nodup.sublist (List.Sublist.map Post.id (List.filter_sublist db.posts)) hwfP
  · have hmapT : db'.topics.map Topic.id = db.topics.map Topic.id := by
      rw [htop]
      refine updRows_map_key _ _ _ _ ?_
      intro u hu; exact hu
    rw [hmapT]
    exact hwfT
  · rw [hf]
    rw [updRows_map_key Forum.id topic.forumId (forumRecompute db2) db.forums
      (fun a ha => by rw [forumRecompute_id]; exact ha)]
    exact hwfF
  · refine List.all_eq_true.mpr ?_
    intro t0 ht0
    rw [htop] at ht0
    rcases mem_updRows_decomp ht0 with ⟨t1, ht1, hcase⟩
    rcases hcase with ⟨hkey, heq⟩ | ⟨hkey, heq⟩
    · rw [heq]
      simp [hp, hkey]
    · rw [heq]
      have hbase := topicsConsistent_mem hinvT ht1
      have hstable : topicPosts db'.posts t1.id = topicPosts db.posts t1.id := by
        rw [hp]
        unfold topicPosts
        refine filter_filter_sub _ _ _ ?_
        intro a ha hqa
        have haq : a.topicId = t1.id := by simpa using hqa
        have : a.id ≠ self.id := by
          intro hc
          have := hremove a ha hc
          subst this
          exact hkey (haq.symm ▸ rfl)
        simp [this]
      simp only [beq_iff_eq, hstable]
      exact hbase
  · refine List.all_eq_true.mpr ?_
    intro f0 hf0
    rw [hf] at hf0
    rcases mem_updRows_decomp hf0 with ⟨f1, hf1, hcase⟩
    rcases hcase with ⟨hkey, heq⟩ | ⟨hkey, heq⟩
    · rw [heq]
      simp only [beq_iff_eq, forumRecompute_postCount, forumRecompute_id]
      rw [hp, htop, hdb2p, hdb2t]
    · rw [heq]
      have hbase := forumsConsistent_mem hinvF hf1
      have hchain : forumPosts db'.topics db'.posts f1.id =
          forumPosts db.topics db.posts f1.id := by
        rw [forumPosts_congr_topics hagree, hp]
        unfold forumPosts
        refine filter_filter_sub _ _ _ ?_
        intro a ha hqa
        have : a.id ≠ self.id := by
          intro hc
          have haself := hremove a ha hc
          subst haself
          rw [postForumId_of_findTopic hft rfl, beq_iff_eq] at hqa
          injection hqa with hqa
          exact hkey hqa.symm
        simp [this]
      simp only [beq_iff_eq, hchain]
      exact hbase

lemma step_preserves {db : DB} {op : Op} {db' : DB}
    (hwf : WF db) (hinv : Inv db) (h : step db op = Except.ok db') :
    WF db' ∧ Inv db' := by
  cases op with
  | save p => exact postSave_preserves hwf hinv h
  | del pid =>
    simp only [step] at h
    cases hfp : findPost db.posts pid with
    | none => rw [hfp] at h; cases h
    | some self =>
      rw [hfp] at h
      have hid : self.id = pid := by simpa using List.find?_some hfp
      have hself : findPost db.posts self.id = some self := by rw [hid]; exact hfp
      exact postDelete_preserves hwf hinv hself h
  | delTopic tid =>
    simp only [step] at h
    unfold topicDelete at h
    cases hft : findTopic db.topics tid with
    | none => rw [hft] at h; cases h
    | some t =>
      rw [hft] at h
      have hid : t.id = tid := by simpa using List.find?_some hft
      have ht : findTopic db.topics t.id = some t := by rw [hid]; exact hft
      exact topicDeleteObj_preserves hwf hinv ht h

lemma execTrace_preserves {db : DB} {ops : List Op} {db' : DB}
    (hwf : WF db) (hinv : Inv db) (h : execTrace db ops = Except.ok db') :
    WF db' ∧ Inv db' := by
  induction ops generalizing db with
  | nil =>
    unfold execTrace at h
    injection h with h
    subst h
    exact ⟨hwf, hinv⟩
  | cons op ops ih =>
    unfold execTrace at h
    cases hs : step db op with
    | error e => rw [hs] at h; cases h
    | ok db1 =>
      rw [hs] at h
      obtain ⟨hwf1, hinv1⟩ := step_preserves hwf hinv hs
      exact ih hwf1 hinv1 h

lemma forumUpdate_ok_found {db : DB} {fid : Nat} {db2 : DB}
    (h : forumUpdate db fid = Except.ok db2) :
    ∃ f, findForum db.forums fid = some f := by
  unfold forumUpdate at h
  cases hf : findForum db.forums fid with
  | none => rw [hf] at h; cases h
  | some f => exact ⟨f, rfl⟩

lemma findForum_after_update {db : DB} {fid : Nat} {db2 : DB} {f : Forum}
    (h : forumUpdate db fid = Except.ok db2)
    (hf : findForum db.forums fid = some f) :
    findForum db2.forums fid = some (forumRecompute db f) := by
  rcases forumUpdate_ok h with ⟨_, _, hforums⟩
  rw [hforums]
  unfold findForum
  rw [find?_updRows_eq Forum.id fid (forumRecompute db) db.forums
    (fun a ha => by rw [forumRecompute_id]; exact ha)]
  unfold findForum at hf
  rw [hf]
  rfl

lemma findForum_after_update_ne {db : DB} {fid y : Nat} {db2 : DB}
    (h : forumUpdate db fid = Except.ok db2) (hy : y ≠ fid) :
    findForum db2.forums y = findForum db.forums y := by
  rcases forumUpdate_ok h with ⟨_, _, hforums⟩
  rw [hforums]
  unfold findForum
  exact find?_updRows_ne Forum.id fid (forumRecompute db) db.forums
    (fun a ha => by rw [forumRecompute_id]; exact ha) y hy

lemma findTopic_updRows_eq {topics : List Topic} {tid : Nat} {g : Topic → Topic}
    (hg : ∀ a : Topic, a.id = tid → (g a).id = tid) :
    findTopic (updRows Topic.id tid g topics) tid = (findTopic topics tid).map g :=
  find?_updRows_eq Topic.id tid g topics hg

lemma findTopic_updRows_ne {topics : List Topic} {tid : Nat} {g : Topic → Topic}
    (hg : ∀ a : Topic, a.id = tid → (g a).id = tid) {y : Nat} (hy : y ≠ tid) :
    findTopic (updRows Topic.id tid g topics) y = findTopic topics y :=
  find?_updRows_ne Topic.id tid g topics hg y hy

lemma findTopic_moderatedTopics {topics : List Topic} {posts1 : List Post}
    {p : Post} {topic : Topic}
    (hft : findTopic topics p.topicId = some topic) :
    findTopic (moderatedTopics topics posts1 p topic) p.topicId =
      some (if ((minByKey (topicPosts posts1 p.topicId)).any (fun h => h.id == p.id))
            && !p.onModeration && topic.onModeration
          then { topic with onModeration := false } else topic) := by
  unfold moderatedTopics
  split
  · rename_i hcond
    refine Eq.trans (findTopic_updRows_eq ?_) ?_
    · intro a ha; exact ha
    · rw [hft]
      rfl
  · rename_i hcond
    exact hft

lemma findTopic_map_proj {topics : List Topic} {tid : Nat} {g : Topic → Topic}
    (hg : ∀ a : Topic, a.id = tid → (g a).id = tid)
    (hmod : ∀ a : Topic, (g a).onModeration = a.onModeration) (x : Nat) :
    (findTopic (updRows Topic.id tid g topics) x).map Topic.onModeration =
      (findTopic topics x).map Topic.onModeration := by
  by_cases hx : x = tid
  · subst hx
    rw [findTopic_updRows_eq hg]
    cases findTopic topics x <;> simp [hmod]
  · rw [findTopic_updRows_ne hg hx]

end Preservation

section Claims

/-- C1: counter convergence.  For any sequence of `Post.save` creates/moves,
`Post.delete`s and `Topic.delete`s in which every operation completes,
starting from a well-formed store satisfying the counter invariant, the store
after the trace satisfies it too: every surviving topic's `post_count` equals
the number of its live posts and every surviving forum's `post_count` equals
the number of live posts under it.  Since any prefix of completed operations
is itself such a trace, the invariant holds after each completed operation. -/
theorem counters_converge_after_trace (db0 : DB) (ops : List Op) (db1 : DB)
    (hwf : WF db0) (hinv : Inv db0) (h : execTrace db0 ops = Except.ok db1) :
    Inv db1 :=
  (execTrace_preserves hwf hinv h).2

/-- Witness for C1 at a concrete trace: posts created in two forums, a
cross-forum post move, a non-head delete and a topic delete. -/
theorem counters_converge_after_trace_witness :
    execTrace c1db c1ops = Except.ok c1res ∧ Inv c1res :=
  ⟨rfl, counters_converge_after_trace c1db c1ops c1res ⟨by decide, by decide, by decide⟩ ⟨rfl, rfl⟩ rfl⟩

/-- C3, counterexample to the claim as stated: on a store whose topic 1 has no
posts, `Post.delete` of an instance pointing at that topic does not complete —
the head-post lookup raises `IndexError`. -/
theorem empty_topic_delete_cex :
    postDelete c3db c3post = Except.error "IndexError" ∧
    findTopic c3db.topics c3post.topicId = some ⟨1, 1, 0, none, false, 0⟩ ∧
    topicPosts c3db.posts c3post.topicId = [] :=
  ⟨rfl, rfl, rfl⟩

/-- C3 (amended): if the head-post lookup during a post delete finds no posts
in the topic, the delete does not complete; the uncaught `IndexError` from the
`[0]` subscript is surfaced to the caller, and nothing is deleted (the error
is raised before any row is touched). -/
theorem empty_topic_delete_raises (db : DB) (self : Post) (topic : Topic)
    (hft : findTopic db.topics self.topicId = some topic)
    (hempty : topicPosts db.posts self.topicId = []) :
    postDelete db self = Except.error "IndexError" := by
  unfold postDelete
  rw [hft, hempty]
  rfl

/-- Witness for the amended C3. -/
theorem empty_topic_delete_raises_witness :
    findTopic c3db.topics c3post.topicId = some ⟨1, 1, 0, none, false, 0⟩ ∧
    topicPosts c3db.posts c3post.topicId = [] ∧
    postDelete c3db c3post = Except.error "IndexError" :=
  ⟨rfl, rfl, empty_topic_delete_raises c3db c3post ⟨1, 1, 0, none, false, 0⟩ rfl rfl⟩

/-- C4: `Topic.update_counters` on a topic with posts sets `post_count` to the
number of the topic's posts and `updated` to `updated ?? created` of a post of
the topic that is maximal in the `(created, id)` order, and persists the row;
on a topic with zero posts it fails with `IndexError` surfaced to the caller
instead of succeeding silently. -/
theorem topic_update_counters_spec (db : DB) (tid : Nat) (t : Topic)
    (ht : findTopic db.topics tid = some t) :
    (topicPosts db.posts tid = [] →
      topicUpdateCounters db tid = Except.error "IndexError") ∧
    (∀ db', topicUpdateCounters db tid = Except.ok db' →
      ∃ m, m ∈ topicPosts db.posts tid ∧
        (∀ q ∈ topicPosts db.posts tid, keyLt (postKey m) (postKey q) = false) ∧
        findTopic db'.topics tid =
          some { t with postCount := (topicPosts db.posts tid).length,
                        updated := some (m.updated.getD m.created) } ∧
        db'.posts = db.posts ∧ db'.forums = db.forums) := by
  constructor
  · exact fun hempty => topicUpdateCounters_err hempty
  · intro db' h
    rcases topicUpdateCounters_ok h with ⟨lp, hmax, hp, hf, htop⟩
    refine ⟨lp, maxByKey_mem hmax, maxByKey_isMax hmax, ?_, hp, hf⟩
    rw [htop]
    refine Eq.trans (findTopic_updRows_eq ?_) ?_
    · intro a ha; exact ha
    · rw [ht]
      rfl

/-- Witness for C4: the nonempty topic 1 of `c4db` is recomputed; the empty
topic 2 raises. -/
theorem topic_update_counters_spec_witness :
    ((topicPosts c4db.posts 2 = [] →
        topicUpdateCounters c4db 2 = Except.error "IndexError") ∧
      (∀ db', topicUpdateCounters c4db 2 = Except.ok db' →
        ∃ m, m ∈ topicPosts c4db.posts 2 ∧
          (∀ q ∈ topicPosts c4db.posts 2, keyLt (postKey m) (postKey q) = false) ∧
          findTopic db'.topics 2 =
            some { (⟨2, 1, 0, none, false, 0⟩ : Topic) with
                      postCount := (topicPosts c4db.posts 2).length,
                      updated := some (m.updated.getD m.created) } ∧
          db'.posts = c4db.posts ∧ db'.forums = c4db.forums)) ∧
    ((topicPosts c4db.posts 1 = [] →
        topicUpdateCounters c4db 1 = Except.error "IndexError") ∧
      (∀ db', topicUpdateCounters c4db 1 = Except.ok db' →
        ∃ m, m ∈ topicPosts c4db.posts 1 ∧
          (∀ q ∈ topicPosts c4db.posts 1, keyLt (postKey m) (postKey q) = false) ∧
          findTopic db'.topics 1 =
            some { (⟨1, 1, 2, some 50, false, 0⟩ : Topic) with
                      postCount := (topicPosts c4db.posts 1).length,
                      updated := some (m.updated.getD m.created) } ∧
          db'.posts = c4db.posts ∧ db'.forums = c4db.forums)) :=
  ⟨topic_update_counters_spec c4db 2 ⟨2, 1, 0, none, false, 0⟩ rfl,
   topic_update_counters_spec c4db 1 ⟨1, 1, 2, some 50, false, 0⟩ rfl⟩

/-- C5, counterexample to the claim as stated: in `c5db` post 1 was edited at
time 999, after post 2 (the `(created, id)`-greatest post) was created.
`Forum.update_counters` persists `updated = 2` — `updated ?? created` of the
latest post — while the claim's `MAX(post.updated ?? post.created)` is 999. -/
theorem forum_updated_cex :
    forumUpdate c5db 1 = Except.ok c5res ∧
    findForum c5res.forums 1 = some ⟨1, 2, 1, some 2⟩ ∧
    forumUpdatedPerSpec (forumPosts c5db.topics c5db.posts 1) = some 999 ∧
    (some 2 : Option Nat) ≠ some 999 :=
  ⟨rfl, rfl, rfl, by decide⟩

/-- C5 (amended): `Forum.update_counters` sets `post_count` to the number of
posts in all topics of the forum and `topic_count` to the number of its
topics; `updated` is set to `updated ?? created` of a post under the forum
that is maximal in the `(created, id)` order — not to the maximum of
`updated ?? created` over all posts — and, if the forum has no posts,
`updated` is left unchanged while the operation still succeeds and persists
the counts. -/
theorem forum_update_counters_spec (db : DB) (fid : Nat) (f : Forum)
    (hf : findForum db.forums fid = some f) :
    ∃ db', forumUpdate db fid = Except.ok db' ∧
      db'.posts = db.posts ∧ db'.topics = db.topics ∧
      findForum db'.forums fid = some (forumRecompute db f) ∧
      (forumRecompute db f).postCount = (forumPosts db.topics db.posts fid).length ∧
      (forumRecompute db f).topicCount = (forumTopics db.topics fid).length ∧
      (forumPosts db.topics db.posts fid = [] →
        (forumRecompute db f).updated = f.updated) ∧
      (∀ m, maxByKey (forumPosts db.topics db.posts fid) = some m →
        (forumRecompute db f).updated = some (m.updated.getD m.created) ∧
        m ∈ forumPosts db.topics db.posts fid ∧
        ∀ q ∈ forumPosts db.topics db.posts fid,
          keyLt (postKey m) (postKey q) = false) := by
  have hid : f.id = fid := by simpa using List.find?_some hf
  have hok : forumUpdate db fid =
      Except.ok { db with forums := updRows Forum.id fid (forumRecompute db) db.forums } := by
    unfold forumUpdate
    rw [hf]
  refine ⟨_, hok, rfl, rfl, ?_, ?_, ?_, ?_, ?_⟩
  · exact findForum_after_update hok hf
  · rw [forumRecompute_postCount, hid]
  · rw [forumRecompute_topicCount, hid]
  · intro hempty
    unfold forumRecompute
    rw [hid, hempty]
    rfl
  · intro m hm
    have h1 : (forumRecompute db f).updated = some (m.updated.getD m.created) := by
      unfold forumRecompute
      rw [hid, hm]
    exact ⟨h1, maxByKey_mem hm, maxByKey_isMax hm⟩

/-- Witness for the amended C5, at the store of the counterexample. -/
theorem forum_update_counters_spec_witness :
    ∃ db', forumUpdate c5db 1 = Except.ok db' ∧
      db'.posts = c5db.posts ∧ db'.topics = c5db.topics ∧
      findForum db'.forums 1 = some (forumRecompute c5db ⟨1, 2, 1, none⟩) ∧
      (forumRecompute c5db ⟨1, 2, 1, none⟩).postCount =
        (forumPosts c5db.topics c5db.posts 1).length ∧
      (forumRecompute c5db ⟨1, 2, 1, none⟩).topicCount =
        (forumTopics c5db.topics 1).length ∧
      (forumPosts c5db.topics c5db.posts 1 = [] →
        (forumRecompute c5db ⟨1, 2, 1, none⟩).updated = (⟨1, 2, 1, none⟩ : Forum).updated) ∧
      (∀ m, maxByKey (forumPosts c5db.topics c5db.posts 1) = some m →
        (forumRecompute c5db ⟨1, 2, 1, none⟩).updated = some (m.updated.getD m.created) ∧
        m ∈ forumPosts c5db.topics c5db.posts 1 ∧
        ∀ q ∈ forumPosts c5db.topics c5db.posts 1,
          keyLt (postKey m) (postKey q) = false) :=
  forum_update_counters_spec c5db 1 ⟨1, 2, 1, none⟩ rfl

/-- C8: `get_or_create_tracker` (both manager variants).  When no row exists
for `(user, target)`, the insert succeeds inside the savepoint and the new
row is returned with `is_new = true`.  When a row exists — the case where the
insert raises the uniqueness `DatabaseError` — only the savepoint is rolled
back (the table is exactly as before), the existing row is re-read and
returned with `is_new = false`, and no error reaches the caller. -/
theorem tracker_get_or_create_spec (rows : List TrackerRow) (u t : Nat) :
    (hasTracker rows u t = false →
      getOrCreateTracker rows u t =
        Except.ok (rows ++ [⟨u, t⟩], ⟨u, t⟩, true)) ∧
    (hasTracker rows u t = true →
      ∃ obj, rows.find? (fun r => r.userId == u && r.targetId == t) = some obj ∧
        getOrCreateTracker rows u t = Except.ok (rows, obj, false)) := by
  constructor
  · intro hno
    unfold getOrCreateTracker
    rw [if_neg (by simp [hno])]
  · intro hyes
    have hex : ∃ obj, rows.find? (fun r => r.userId == u && r.targetId == t) = some obj := by
      rcases List.any_eq_true.mp hyes with ⟨r, hr, hp⟩
      have hsome : ((rows.find? (fun r => r.userId == u && r.targetId == t)).isSome) = true :=
        List.find?_isSome.mpr ⟨r, hr, hp⟩
      rcases Option.isSome_iff_exists.mp hsome with ⟨obj, hobj⟩
      exact ⟨obj, hobj⟩
    rcases hex with ⟨obj, hobj⟩
    refine ⟨obj, hobj, ?_⟩
    unfold getOrCreateTracker
    rw [if_pos hyes, hobj]

/-- Witness for C8: in `c8rows`, `(2, 2)` is new and gets created; `(1, 1)`
already exists, is returned unchanged with `is_new = false`, and the table is
untouched. -/
theorem tracker_get_or_create_spec_witness :
    getOrCreateTracker c8rows 2 2 = Except.ok (c8rows ++ [⟨2, 2⟩], ⟨2, 2⟩, true) ∧
    ∃ obj, c8rows.find? (fun r => r.userId == 1 && r.targetId == 1) = some obj ∧
      getOrCreateTracker c8rows 1 1 = Except.ok (c8rows, obj, false) :=
  ⟨(tracker_get_or_create_spec c8rows 2 2).1 rfl,
   (tracker_get_or_create_spec c8rows 1 1).2 rfl⟩

/-- C9: for any answer of a topic whose poll type is not NONE, `votes` is the
number of `PollAnswerUser` rows referencing the answer, and `votes_percent` is
`votes / totalTopicVotes * 100` when the topic's total vote count is positive
and `0` when it is zero. -/
theorem votes_percent_formula (ps : PollState) (t : Topic) (a : PollAnswerRow)
    (hp : t.pollType ≠ 0) :
    answerVotes ps a = (ps.votesRows.filter (fun v => v.answerId == a.id)).length ∧
    votesPercent ps t a =
      (if 0 < totalTopicVotes ps t then
        (answerVotes ps a : ℚ) / (totalTopicVotes ps t : ℚ) * 100
      else 0) := by
  refine ⟨rfl, ?_⟩
  unfold votesPercent pollVotes
  rw [if_pos hp]
  by_cases h0 : 0 < totalTopicVotes ps t
  · rw [if_pos (by simpa [pyGtZero] using h0), if_pos h0]
    rfl
  · rw [if_neg (by simpa [pyGtZero] using h0), if_neg h0]

/-- Witness for C9: answers with 3 and 1 votes give 75% and 25%; with no votes
at all the percentage is 0. -/
theorem votes_percent_formula_witness :
    votesPercent c9ps c9topic ⟨1, 1⟩ =
      (if 0 < totalTopicVotes c9ps c9topic then
        (answerVotes c9ps ⟨1, 1⟩ : ℚ) / (totalTopicVotes c9ps c9topic : ℚ) * 100
      else 0) ∧
    votesPercent c9ps c9topic ⟨1, 1⟩ = 75 ∧
    votesPercent c9ps c9topic ⟨2, 1⟩ = 25 ∧
    votesPercent c9psEmpty c9topic ⟨1, 1⟩ = 0 :=
  ⟨(votes_percent_formula c9ps c9topic ⟨1, 1⟩ (by decide)).2,
   by norm_num [votesPercent, pollVotes, totalTopicVotes, answerVotes, pyGtZero, c9ps, c9topic],
   by norm_num [votesPercent, pollVotes, totalTopicVotes, answerVotes, pyGtZero, c9ps, c9topic],
   by norm_num [votesPercent, pollVotes, totalTopicVotes, answerVotes, pyGtZero, c9psEmpty, c9topic]⟩

/-- C10: for an answer of a topic with `poll_type = NONE`, `poll_votes`
returns the not-applicable value `None`; Python 2 treats `None > 0` as false,
so `votes_percent` returns 0 without failing. -/
theorem votes_percent_poll_none (ps : PollState) (t : Topic) (a : PollAnswerRow)
    (hp : t.pollType = 0) :
    pollVotes ps t = none ∧ votesPercent ps t a = 0 := by
  have h1 : pollVotes ps t = none := by
    unfold pollVotes
    rw [if_neg (by simp [hp])]
  refine ⟨h1, ?_⟩
  unfold votesPercent
  rw [h1]
  rfl

/-- Witness for C10: a vote row exists, yet the NONE-poll topic reports
`poll_votes = None` and 0 percent. -/
theorem votes_percent_poll_none_witness :
    pollVotes c10ps c10topic = none ∧ votesPercent c10ps c10topic ⟨1, 1⟩ = 0 :=
  votes_percent_poll_none c10ps c10topic ⟨1, 1⟩ rfl

/-- C2: deleting a topic's head post — the `(created, id)`-least post of the
topic, as witnessed by the bundled minimality facts — deletes the whole topic
(its row is gone and it has no posts left) and recomputes the forum; deleting
a non-head post removes exactly that post, then recomputes the topic's and the
forum's counters. -/
theorem head_post_delete_cascades (db : DB) (self : Post) (db' : DB)
    (topic : Topic) (headPost : Post)
    (hft : findTopic db.topics self.topicId = some topic)
    (hmin : minByKey (topicPosts db.posts self.topicId) = some headPost)
    (h : postDelete db self = Except.ok db') :
    headPost ∈ topicPosts db.posts self.topicId ∧
    (∀ q ∈ topicPosts db.posts self.topicId,
      keyLt (postKey q) (postKey headPost) = false) ∧
    (self.id = headPost.id →
      findTopic db'.topics self.topicId = none ∧
      db'.posts = db.posts.filter (fun q => !(q.topicId == self.topicId)) ∧
      (∃ f', findForum db'.forums topic.forumId = some f' ∧
        f'.postCount = (forumPosts db'.topics db'.posts topic.forumId).length)) ∧
    (self.id ≠ headPost.id →
      db'.posts = db.posts.filter (fun q => !(q.id == self.id)) ∧
      (∃ t', findTopic db'.topics self.topicId = some t' ∧
        t'.postCount = (topicPosts db'.posts self.topicId).length) ∧
      (∃ f', findForum db'.forums topic.forumId = some f' ∧
        f'.postCount = (forumPosts db'.topics db'.posts topic.forumId).length)) := by
  rcases postDelete_ok_shape h with ⟨topic1, headPost1, hft1, hmin1, hbr⟩
  rw [hft] at hft1
  injection hft1 with hft1
  subst hft1
  rw [hmin] at hmin1
  injection hmin1 with hmin1
  subst hmin1
  have htid : topic.id = self.topicId := by simpa using List.find?_some hft
  refine ⟨minByKey_mem hmin, minByKey_isMin hmin, ?_, ?_⟩
  · -- head case
    intro hhead
    rcases hbr with ⟨_, hcas⟩ | ⟨hne, _⟩
    · unfold topicDeleteObj at hcas
      rcases forumUpdate_ok_found hcas with ⟨f0, hf0⟩
      have hfr := findForum_after_update hcas hf0
      rcases forumUpdate_ok hcas with ⟨hp, htop, _⟩
      have hd1p : (topicDeleteDB1 db topic).posts =
          db.posts.filter (fun q => !(q.topicId == topic.id)) := rfl
      have hd1t : (topicDeleteDB1 db topic).topics =
          db.topics.filter (fun u => !(u.id == topic.id)) := rfl
      rw [hd1p] at hp
      rw [hd1t] at htop
      have hf0id : f0.id = topic.forumId := by simpa using List.find?_some hf0
      refine ⟨?_, by rw [hp, htid], ?_⟩
      · rw [htop]
        unfold findTopic
        rw [List.find?_eq_none]
        intro x hx
        rw [List.mem_filter] at hx
        have : x.id ≠ topic.id := by simpa using hx.2
        simp [htid ▸ this]
      · refine ⟨forumRecompute (topicDeleteDB1 db topic) f0, hfr, ?_⟩
        rw [forumRecompute_postCount, hf0id]
        rcases forumUpdate_ok hcas with ⟨hp2, htop2, _⟩
        rw [hp2, htop2]
    · exact absurd hhead hne
  · -- non-head case
    intro hhead
    rcases hbr with ⟨heq, _⟩ | ⟨_, db2, hub2, hfu⟩
    · exact absurd heq hhead
    rcases topicUpdateCounters_ok hub2 with ⟨lp, hmax, hdb2p, hdb2f, hdb2t⟩
    have hd1p : (postDeleteDB1 db self).posts =
        db.posts.filter (fun q => !(q.id == self.id)) := rfl
    have hd1t : (postDeleteDB1 db self).topics = db.topics := rfl
    rw [hd1p] at hdb2p hdb2t
    rw [hd1t] at hdb2t
    rcases forumUpdate_ok_found hfu with ⟨f0, hf0⟩
    have hfr := findForum_after_update hfu hf0
    have hf0id : f0.id = topic.forumId := by simpa using List.find?_some hf0
    rcases forumUpdate_ok hfu with ⟨hp, htop, _⟩
    rw [hdb2p] at hp
    rw [hdb2t] at htop
    refine ⟨hp, ?_, ?_⟩
    · have hrowt : findTopic db'.topics self.topicId =
          some { topic with
                   postCount := (topicPosts (db.posts.filter
                     (fun q => !(q.id == self.id))) self.topicId).length,
                   updated := some (lp.updated.getD lp.created) } := by
        rw [htop]
        refine Eq.trans (findTopic_updRows_eq ?_) ?_
        · intro a ha; exact ha
        · rw [hft]
          rfl
      refine ⟨_, hrowt, ?_⟩
      rw [hp]
    · refine ⟨forumRecompute db2 f0, hfr, ?_⟩
      rw [forumRecompute_postCount, hf0id]
      rcases forumUpdate_ok hfu with ⟨hp2, htop2, _⟩
      rw [hp2, htop2]

/-- Witness for C2, at `c2db`: deleting head post 1 removes the topic and all
posts; deleting the non-head post 2 removes only it and recounts to 2. -/
theorem head_post_delete_cascades_witness :
    (postDelete c2db ⟨1, 1, 10, none, false⟩ = Except.ok c2headRes ∧
      findTopic c2headRes.topics 1 = none ∧
      c2headRes.posts = []) ∧
    (postDelete c2db ⟨2, 1, 20, none, false⟩ = Except.ok c2tailRes ∧
      (∃ t', findTopic c2tailRes.topics 1 = some t' ∧
        t'.postCount = (topicPosts c2tailRes.posts 1).length)) := by
  have h1 := head_post_delete_cascades c2db ⟨1, 1, 10, none, false⟩ c2headRes
    ⟨1, 1, 3, some 30, false, 0⟩ ⟨1, 1, 10, none, false⟩ rfl rfl rfl
  have h2 := head_post_delete_cascades c2db ⟨2, 1, 20, none, false⟩ c2tailRes
    ⟨1, 1, 3, some 30, false, 0⟩ ⟨1, 1, 10, none, false⟩ rfl rfl rfl
  refine ⟨⟨rfl, (h1.2.2.1 rfl).1, rfl⟩, ⟨rfl, (h2.2.2.2 (by decide)).2.1⟩⟩

/-- C6: moderation auto-clear.  After a successful `Post.save`, the persisted
topic row's `on_moderation` flag is `false` when the saved post is the topic's
head post after the save and is itself not on moderation while the topic was
flagged; in every other case (head post itself on moderation, post not the
head, topic not flagged) the flag is exactly what it was before the save. -/
theorem moderation_autoclear (db : DB) (p : Post) (db' : DB) (topic : Topic)
    (hft : findTopic db.topics p.topicId = some topic)
    (h : postSave db p = Except.ok db') :
    ∃ t', findTopic db'.topics p.topicId = some t' ∧
      t'.onModeration =
        (if isHeadAfterSave db p && !p.onModeration && topic.onModeration
         then false else topic.onModeration) := by
  rcases postSave_ok_shape h with ⟨topic1, db2, db3, hft1, hub2, hub3, hbr⟩
  rw [hft] at hft1
  injection hft1 with hft1
  subst hft1
  rcases topicUpdateCounters_ok hub2 with ⟨lp1, hmax1, hdb2p, hdb2f, hdb2t⟩
  have hdb1t : (postSaveDB1 db p topic).topics =
      moderatedTopics db.topics (upsertPost db.posts p) p topic := rfl
  rw [hdb1t] at hdb2t
  rcases forumUpdate_ok hub3 with ⟨hdb3p, hdb3t, hdb3f⟩
  rw [hdb2t] at hdb3t
  have hmod1 : (findTopic (moderatedTopics db.topics (upsertPost db.posts p) p topic)
        p.topicId).map Topic.onModeration =
      some (if ((minByKey (topicPosts (upsertPost db.posts p) p.topicId)).any
              (fun h => h.id == p.id)) && !p.onModeration && topic.onModeration
            then false else topic.onModeration) := by
    rw [findTopic_moderatedTopics hft]
    split
    · rfl
    · rfl
  have hmod3 : (findTopic db3.topics p.topicId).map Topic.onModeration =
      some (if ((minByKey (topicPosts (upsertPost db.posts p) p.topicId)).any
              (fun h => h.id == p.id)) && !p.onModeration && topic.onModeration
            then false else topic.onModeration) := by
    rw [hdb3t]
    refine Eq.trans (findTopic_map_proj ?_ ?_ p.topicId) hmod1
    · intro a ha; exact ha
    · intro a; rfl
  rcases hbr with ⟨_, rfl⟩ | ⟨old, oldTopic, db4, hfp, hdiff, hfot, hub4, hub5⟩
  · rcases Option.map_eq_some'.mp hmod3 with ⟨t', ht', hval⟩
    exact ⟨t', ht', hval⟩
  · rcases topicUpdateCounters_ok hub4 with ⟨lp2, hmax2, hdb4p, hdb4f, hdb4t⟩
    rcases forumUpdate_ok hub5 with ⟨hdb5p, hdb5t, hdb5f⟩
    rw [hdb4t] at hdb5t
    have hmod5 : (findTopic db'.topics p.topicId).map Topic.onModeration =
        some (if ((minByKey (topicPosts (upsertPost db.posts p) p.topicId)).any
                (fun h => h.id == p.id)) && !p.onModeration && topic.onModeration
              then false else topic.onModeration) := by
      rw [hdb5t]
      refine Eq.trans (findTopic_map_proj ?_ ?_ p.topicId) hmod3
      · intro a ha; exact ha
      · intro a; rfl
    rcases Option.map_eq_some'.mp hmod5 with ⟨t', ht', hval⟩
    exact ⟨t', ht', hval⟩

/-- Witness for C6: a moderated topic whose head post is saved unmoderated has
its flag cleared in the persisted row. -/
theorem moderation_autoclear_witness :
    (∃ t', findTopic
        (⟨[⟨1, 1, 1, some 10⟩], [⟨1, 1, 1, some 10, false, 0⟩],
          [⟨1, 1, 10, none, false⟩]⟩ : DB).topics 1 = some t' ∧
      t'.onModeration =
        (if isHeadAfterSave c6db ⟨1, 1, 10, none, false⟩
            && !(⟨1, 1, 10, none, false⟩ : Post).onModeration
            && (⟨1, 1, 0, none, true, 0⟩ : Topic).onModeration
         then false else (⟨1, 1, 0, none, true, 0⟩ : Topic).onModeration)) :=
  moderation_autoclear c6db ⟨1, 1, 10, none, false⟩ _ ⟨1, 1, 0, none, true, 0⟩ rfl rfl

/-- C7: saving an existing topic whose forum changed recomputes both forums'
counters and persists the topic row exactly as given (its `post_count` and
`updated` are the saved object's own, unchanged); saving with the forum
unchanged recomputes no forum at all. -/
theorem topic_move_recomputes_forums (db : DB) (t : Topic) (old : Topic)
    (hold : findTopic db.topics t.id = some old) :
    (old.forumId = t.forumId → ∀ db', topicSave db t = Except.ok db' →
      db'.forums = db.forums ∧ db'.posts = db.posts ∧
      findTopic db'.topics t.id = some t) ∧
    (old.forumId ≠ t.forumId → ∀ db', topicSave db t = Except.ok db' →
      db'.posts = db.posts ∧
      findTopic db'.topics t.id = some t ∧
      (∃ fA, findForum db'.forums old.forumId = some fA ∧
        fA.postCount = (forumPosts db'.topics db'.posts old.forumId).length ∧
        fA.topicCount = (forumTopics db'.topics old.forumId).length) ∧
      (∃ fB, findForum db'.forums t.forumId = some fB ∧
        fB.postCount = (forumPosts db'.topics db'.posts t.forumId).length ∧
        fB.topicCount = (forumTopics db'.topics t.forumId).length)) := by
  have hrow : findTopic (topicSaveDB1 db t).topics t.id = some t := by
    have : (topicSaveDB1 db t).topics = updRows Topic.id t.id (fun _ => t) db.topics := rfl
    rw [this]
    refine Eq.trans (findTopic_updRows_eq ?_) ?_
    · intro a _; rfl
    · rw [hold]
      rfl
  constructor
  · intro hsame db' h
    unfold topicSave at h
    rw [hold] at h
    simp only [] at h
    rw [if_pos (by simp [hsame])] at h
    injection h with h
    subst h
    exact ⟨rfl, rfl, hrow⟩
  · intro hdiff db' h
    unfold topicSave at h
    rw [hold] at h
    simp only [] at h
    rw [if_neg (by simp [hdiff])] at h
    cases hA : forumUpdate (topicSaveDB1 db t) old.forumId with
    | error e => rw [hA] at h; cases h
    | ok db2 =>
      rw [hA] at h
      rcases forumUpdate_ok_found hA with ⟨fA0, hfA0⟩
      have hfrA := findForum_after_update hA hfA0
      have hfA0id : fA0.id = old.forumId := by simpa using List.find?_some hfA0
      rcases forumUpdate_ok hA with ⟨hA_p, hA_t, hA_f⟩
      rcases forumUpdate_ok_found h with ⟨fB0, hfB0⟩
      have hfrB := findForum_after_update h hfB0
      have hfB0id : fB0.id = t.forumId := by simpa using List.find?_some hfB0
      rcases forumUpdate_ok h with ⟨hB_p, hB_t, hB_f⟩
      have hposts : db'.posts = db.posts := by rw [hB_p, hA_p]; rfl
      have htopics : db'.topics = (topicSaveDB1 db t).topics := by rw [hB_t, hA_t]
      refine ⟨hposts, by rw [htopics]; exact hrow, ?_, ?_⟩
      · refine ⟨forumRecompute (topicSaveDB1 db t) fA0, ?_, ?_, ?_⟩
        · rw [findForum_after_update_ne h hdiff]
          exact hfrA
        · rw [forumRecompute_postCount, hfA0id, htopics, hposts]
          rfl
        · rw [forumRecompute_topicCount, hfA0id, htopics]
      · refine ⟨forumRecompute db2 fB0, hfrB, ?_, ?_⟩
        · rw [forumRecompute_postCount, hfB0id, hB_t, hB_p]
        · rw [forumRecompute_topicCount, hfB0id, hB_t]

/-- Witness for C7: moving the one-post topic of `c7db` from forum 1 to
forum 2 recomputes both forums and keeps the topic row as saved. -/
theorem topic_move_recomputes_forums_witness :
    (1 : Nat) ≠ 2 ∧
    (∀ db', topicSave c7db ⟨1, 2, 1, some 10, false, 0⟩ = Except.ok db' →
      db'.posts = c7db.posts ∧
      findTopic db'.topics 1 = some ⟨1, 2, 1, some 10, false, 0⟩ ∧
      (∃ fA, findForum db'.forums 1 = some fA ∧
        fA.postCount = (forumPosts db'.topics db'.posts 1).length ∧
        fA.topicCount = (forumTopics db'.topics 1).length) ∧
      (∃ fB, findForum db'.forums 2 = some fB ∧
        fB.postCount = (forumPosts db'.topics db'.posts 2).length ∧
        fB.topicCount = (forumTopics db'.topics 2).length)) :=
  ⟨by decide,
   (topic_move_recomputes_forums c7db ⟨1, 2, 1, some 10, false, 0⟩
      ⟨1, 1, 1, some 10, false, 0⟩ rfl).2 (by decide)⟩

end Claims

end Pybb
